import Mathlib

/-!
Shallow embedding of the board state machine of `src/game.js` (the
"line breaker" falling-block game) and proofs about the claims of its
specification.

Conventions of the embedding:
* grid cells are `Nat`: `0` is an empty cell, a nonzero value stands for a
  color tag (the source stores CSS color strings; only truthiness and
  equality of cells matter to the game logic);
* `blockTypes` cells are `Nat`: `0` = `BLOCK_TYPES.NORMAL`,
  `1` = `BLOCK_TYPES.BOMB`;
* piece coordinates are `Int`, exactly as JavaScript numbers are signed;
* out-of-range list reads use `List.getD` with default `0`/`[]`, matching
  the fact that in the source every read is bounds-checked before use.
-/

set_option maxRecDepth 4000

namespace LineBreaker

/-- `const COLS = 10` (game.js line 2). -/
def COLS : Nat := 10

/-- `const ROWS = 18` (game.js line 3). -/
def ROWS : Nat := 18

/-- Gravity directions, `const GRAVITY = { DOWN: 0, UP: 1 }` (game.js 43-46). -/
inductive Gravity where
  | DOWN : Gravity
  | UP : Gravity
deriving DecidableEq, Repr

abbrev Grid := List (List Nat)

/-- Read a cell; rows and cells outside the stored lists read as `0`. -/
def cellAt (g : Grid) (r c : Nat) : Nat := (g.getD r []).getD c 0

/-- Write a cell in place (`grid[r][c] = v`); out-of-range writes are no-ops. -/
def setCell (g : Grid) (r c : Nat) (v : Nat) : Grid :=
  g.set r ((g.getD r []).set c v)

/-- Collision detection, `function collision(x, y, shape)` (game.js 305-325):
true iff some set cell of the shape lands outside `[0,COLS)×[0,ROWS)` or on an
occupied grid cell. -/
def collision (g : Grid) (x y : Int) (shape : List (List Nat)) : Bool :=
  (List.range shape.length).any fun row =>
    (List.range (shape.getD row []).length).any fun col =>
      (shape.getD row []).getD col 0 != 0 &&
        (let newX : Int := x + col
         let newY : Int := y + row
         if newX < 0 || newX ≥ (COLS : Int) || newY < 0 || newY ≥ (ROWS : Int) then
           true
         else
           cellAt g newY.toNat newX.toNat != 0)

/-- Shape rotation as built by `function rotate()` (game.js 340-359): for each
column of the old shape, a new row collecting the old column bottom-to-top. -/
def rotateShape (shape : List (List Nat)) : List (List Nat) :=
  (List.range (shape.headD []).length).map fun col =>
    shape.reverse.map fun row => row.getD col 0

/-- A row is complete: `grid[row].every(cell => cell !== 0)` (game.js 501). -/
def rowFull (g : Grid) (r : Nat) : Bool := (g.getD r []).all (· != 0)

/-- A column is complete (game.js 507-518). -/
def colFull (g : Grid) (c : Nat) : Bool :=
  (List.range ROWS).all fun r => cellAt g r c != 0

/-- Row scan of `clearLines` (game.js 500-504): rows are pushed while looping
`row` from `ROWS - 1` down to `0`, so the list is in decreasing order. -/
def scanRows (g : Grid) : List Nat :=
  (List.range ROWS).reverse.filter (rowFull g)

/-- Column scan of `clearLines` (game.js 507-518), in increasing order. -/
def scanCols (g : Grid) : List Nat :=
  (List.range COLS).filter (colFull g)

/-- The occupancy grid together with the parallel `blockTypes` matrix. -/
structure Board where
  grid : Grid
  blockTypes : Grid
deriving Repr, DecidableEq

/-- A fresh all-empty row, `new Array(COLS).fill(0)`; the same literal also
serves as a `blockTypes` row since `BLOCK_TYPES.NORMAL = 0`. -/
def emptyRow : List Nat := List.replicate COLS 0

/-- Bomb collection of the clear callback (game.js 523-545): bombs of the
cleared rows (scan order, every column), then bombs of the cleared columns,
skipping coordinates already collected. -/
def collectBombs (b : Grid) (rows cols : List Nat) : List (Nat × Nat) :=
  let fromRows := rows.foldl
    (fun acc r => acc ++ ((List.range COLS).filter
      (fun c => cellAt b r c == 1)).map (fun c => (r, c))) []
  cols.foldl
    (fun acc c => acc ++ ((List.range ROWS).filter
      (fun r => cellAt b r c == 1 && !acc.contains (r, c))).map (fun r => (r, c)))
    fromRows

/-- One row removal (game.js 554-562): `splice` the row out, then `unshift` a
fresh empty row when gravity is DOWN or `push` one when gravity is UP. -/
def removeRow (grav : Gravity) (g : Grid) (r : Nat) : Grid :=
  match grav with
  | .DOWN => emptyRow :: g.eraseIdx r
  | .UP => g.eraseIdx r ++ [emptyRow]

/-- The row-clear loop (game.js 548-564): `rowsToClear` was collected in
decreasing order and the loop walks it from its last element, so the rows are
processed in increasing index order; this function takes that processed order
as its argument list. -/
def clearRows (grav : Gravity) (brd : Board) (rows : List Nat) : Board :=
  rows.foldl
    (fun b r => ⟨removeRow grav b.grid r, removeRow grav b.blockTypes r⟩) brd

/-- Zeroing of one cleared column (game.js 569-573). -/
def zeroColumn (brd : Board) (c : Nat) : Board :=
  (List.range ROWS).foldl
    (fun b r => ⟨setCell b.grid r c 0, setCell b.blockTypes r c 0⟩) brd

/-- The search of `dropColumn`s inner loop (game.js 654-662): the first
non-empty cell strictly above `row`, scanning upward. -/
def findAbove (g : Grid) (c row : Nat) : Option Nat :=
  (List.range row).reverse.find? fun r => cellAt g r c != 0

/-- One iteration of the outer loop of `dropColumn` (game.js 651-664). -/
def dropColumnStep (brd : Board) (c row : Nat) : Board :=
  if cellAt brd.grid row c == 0 then
    match findAbove brd.grid c row with
    | some r =>
        ⟨setCell (setCell brd.grid row c (cellAt brd.grid r c)) r c 0,
         setCell (setCell brd.blockTypes row c (cellAt brd.blockTypes r c)) r c 0⟩
    | none => brd
  else brd

/-- `function dropColumn(col)` (game.js 650-665): walk the column from the
bottom row upward, pulling the nearest cell from above into each empty cell.
Note the direction is fixed (downward) and does not consult gravity. -/
def dropColumn (brd : Board) (c : Nat) : Board :=
  (List.range ROWS).reverse.foldl (fun b row => dropColumnStep b c row) brd

/-- The column-clear loop (game.js 567-577): zero the column, then drop. -/
def clearCols (brd : Board) (cols : List Nat) : Board :=
  cols.foldl (fun b c => dropColumn (zeroColumn b c) c) brd

/-- Board plus the running score, for the bomb-explosion phase. -/
structure ScoredBoard where
  board : Board
  score : Nat
deriving Repr, DecidableEq

/-- Row indices of the 3x3 bomb neighbourhood, `max(0, bombRow - 1)` through
`min(ROWS - 1, bombRow + 1)` (game.js 670). -/
def boxRows (br : Nat) : List Nat :=
  (List.range ROWS).filter fun r => br ≤ r + 1 && r ≤ br + 1

/-- Column indices of the 3x3 bomb neighbourhood (game.js 671). -/
def boxCols (bc : Nat) : List Nat :=
  (List.range COLS).filter fun c => bc ≤ c + 1 && c ≤ bc + 1

/-- Clearing of one cell of the bomb neighbourhood (game.js 672-679): when
occupied, zero both matrices and award 10 bonus points. -/
def bombClearCell (s : ScoredBoard) (r c : Nat) : ScoredBoard :=
  if cellAt s.board.grid r c != 0 then
    ⟨⟨setCell s.board.grid r c 0, setCell s.board.blockTypes r c 0⟩,
     s.score + 10⟩
  else s

/-- The clearing loop of `explodeBomb` (game.js 670-680): every occupied cell
of the clipped 3x3 neighbourhood is zeroed, 10 points each. -/
def bombBoxClear (s : ScoredBoard) (br bc : Nat) : ScoredBoard :=
  (boxRows br).foldl
    (fun acc r => (boxCols bc).foldl (fun a c => bombClearCell a r c) acc) s

/-- `function explodeBomb(bombRow, bombCol)` (game.js 668-686): clear the
clipped 3x3 neighbourhood with a 10-point bonus per occupied cell, then run
`dropColumn` on every affected column. -/
def explodeBomb (s : ScoredBoard) (br bc : Nat) : ScoredBoard :=
  ⟨(boxCols bc).foldl (fun b c => dropColumn b c) (bombBoxClear s br bc).board,
   (bombBoxClear s br bc).score⟩

/-- The bomb loop of the clear callback (game.js 580-585). -/
def explodeBombs (s : ScoredBoard) (bombs : List (Nat × Nat)) : ScoredBoard :=
  bombs.foldl (fun a p => explodeBomb a p.1 p.2) s

/-- The scoring and leveling counters touched by the clear callback. -/
structure ScoreState where
  score : Nat
  lines : Nat
  level : Nat
  dropInterval : Nat
deriving Repr, DecidableEq

/-- The tiered base score (game.js 599-601). -/
def baseScore (n : Nat) : Nat :=
  if n == 1 then 100 else if n == 2 then 300 else if n == 3 then 500 else 800

/-- Scoring and leveling of the clear callback (game.js 588-603), for a clear
of `n` lines: `lines += n`; `newLevel = floor(lines / 3) + 1`; on level-up the
level is stored first and the interval recomputed from the stored (new) level;
the earned score is `baseScore(n) * level` with the already-updated level.
In the source `700 - level * 50` can go negative before the `max`; in `Nat`
the subtraction truncates at `0` instead, and `max 100` maps both to `100`. -/
def applyScore (s : ScoreState) (n : Nat) : ScoreState :=
  let lines := s.lines + n
  let newLevel := lines / 3 + 1
  let level := if newLevel > s.level then newLevel else s.level
  let dropInterval :=
    if newLevel > s.level then max 100 (700 - level * 50) else s.dropInterval
  { score := s.score + baseScore n * level
    lines := lines
    level := level
    dropInterval := dropInterval }

/-- Board and counters together: the state the clear callback rewrites. -/
structure ClearState where
  board : Board
  counters : ScoreState
deriving Repr, DecidableEq

/-- The whole removal callback of `clearLines` (game.js 522-619), run once the
flash finishes: collect bombs of the scanned lines, clear rows (in increasing
index order, see `clearRows`), clear columns, explode the collected bombs at
their recorded coordinates, then update lines/level/interval/score.  When the
scan finds nothing, `clearLines` schedules nothing and the state is
untouched. -/
def clearResolve (grav : Gravity) (st : ClearState) : ClearState :=
  let rows := scanRows st.board.grid
  let cols := scanCols st.board.grid
  if rows.isEmpty && cols.isEmpty then st
  else
    let bombs := collectBombs st.board.blockTypes rows cols
    let afterRows := clearRows grav st.board rows.reverse
    let afterCols := clearCols afterRows cols
    let afterBombs := explodeBombs ⟨afterCols, st.counters.score⟩ bombs
    let n := rows.length + cols.length
    ⟨afterBombs.board,
     applyScore { st.counters with score := afterBombs.score } n⟩

/-- A falling piece (game.js 270-277): shape mask, color, anchor, bomb flag. -/
structure Piece where
  shape : List (List Nat)
  color : Nat
  x : Int
  y : Int
  hasBomb : Bool
deriving Repr, DecidableEq

/-- JavaScript `Math.round(a / b)` for integer `a` and positive integer `b`:
round half toward positive infinity, i.e. `floor(a / b + 1 / 2)`. -/
def jsRoundDiv (a : Int) (b : Nat) : Int :=
  Int.fdiv (2 * a + b) (2 * b)

/-- The set cells of a shape as `(row, col)` offset pairs, in loop order. -/
def shapeCells (shape : List (List Nat)) : List (Nat × Nat) :=
  (List.range shape.length).foldl
    (fun acc row => acc ++ ((List.range (shape.getD row []).length).filter
      (fun col => (shape.getD row []).getD col 0 != 0)).map (fun col => (row, col)))
    []

/-- The bomb cell of a locking piece (game.js 407-425): the rounded centroid of
the piece's set cells in grid coordinates, or `(-1, -1)` when it has none. -/
def bombCentroid (p : Piece) : Int × Int :=
  let cells := shapeCells p.shape
  if cells.length > 0 then
    (jsRoundDiv (cells.foldl (fun t q => t + (p.y + q.1)) 0) cells.length,
     jsRoundDiv (cells.foldl (fun t q => t + (p.x + q.2)) 0) cells.length)
  else (-1, -1)

/-- `function lockPiece()` (game.js 404-443): copy every set cell of the shape
into the grid with the piece's color and tag exactly the centroid cell of a
bomb piece as `BOMB`.  The source guards only `gridY >= 0`; writes at negative
`gridX` would create non-index properties that no grid read ever observes, so
the embedding guards both coordinates (and `setCell` ignores out-of-range
writes, as the locked piece is in-bounds whenever locking is reachable). -/
def lockPiece (p : Piece) (brd : Board) : Board :=
  let bomb := bombCentroid p
  (shapeCells p.shape).foldl
    (fun b q =>
      if p.y + q.1 ≥ 0 && p.x + q.2 ≥ 0 then
        let gy := (p.y + q.1).toNat
        let gx := (p.x + q.2).toNat
        let t : Nat :=
          if p.hasBomb && p.y + q.1 == bomb.1 && p.x + q.2 == bomb.2 then 1 else 0
        ⟨setCell b.grid gy gx p.color, setCell b.blockTypes gy gx t⟩
      else b)
    brd

/-- The session state the piece-level commands operate on. -/
structure GameState where
  board : Board
  piece : Option Piece
  gravity : Gravity
  isOver : Bool
deriving Repr, DecidableEq

/-- Toggling of `currentGravity` (game.js 704). -/
def toggleGravity : Gravity → Gravity
  | .DOWN => .UP
  | .UP => .DOWN

/-- The spawn column, `Math.floor(COLS / 2) - 1` (game.js 286). -/
def spawnX : Int := (COLS : Int) / 2 - 1

/-- The spawn row for a piece of the given height (game.js 288-296). -/
def spawnY (grav : Gravity) (height : Nat) : Int :=
  match grav with
  | .DOWN => 0
  | .UP => (ROWS : Int) - height

/-- `function spawnPiece()` (game.js 281-302): the queued piece becomes the
falling piece at the centered column and the gravity-appropriate edge; when
that position already collides, `gameOver()` (game.js 2021-2031) runs, which
raises the terminal flag and touches no board state. -/
def spawnPiece (nextP : Piece) (st : GameState) : GameState :=
  let p : Piece :=
    { nextP with x := spawnX, y := spawnY st.gravity nextP.shape.length }
  if collision st.board.grid p.x p.y p.shape then
    { st with piece := some p, isOver := true }
  else
    { st with piece := some p }

/-- `function move(dir)` (game.js 328-337): translate unless it collides. -/
def moveOp (d : Int) (st : GameState) : GameState :=
  if st.isOver then st
  else
    match st.piece with
    | none => st
    | some p =>
        if !collision st.board.grid (p.x + d) p.y p.shape then
          { st with piece := some { p with x := p.x + d } }
        else st

/-- `function rotate()` (game.js 340-359): replace the shape by its rotation
unless the rotated shape collides at the current position. -/
def rotateOp (st : GameState) : GameState :=
  if st.isOver then st
  else
    match st.piece with
    | none => st
    | some p =>
        if !collision st.board.grid p.x p.y (rotateShape p.shape) then
          { st with piece := some { p with shape := rotateShape p.shape } }
        else st

/-- The synchronous part of `function drop()` (game.js 362-377): one step in
the gravity direction, or on contact lock the piece and immediately spawn the
next one.  `clearLines()` runs between the two in the source, but on a
successful scan it only schedules the flash - the board mutation happens in
the deferred callback (`clearResolve`), after `spawnPiece` already ran; the
scheduling order itself is modeled by `dropLockSched` below. -/
def dropOp (nextP : Piece) (st : GameState) : GameState :=
  if st.isOver then st
  else
    match st.piece with
    | none => st
    | some p =>
        let newY : Int := match st.gravity with
          | .DOWN => p.y + 1
          | .UP => p.y - 1
        if !collision st.board.grid p.x newY p.shape then
          { st with piece := some { p with y := newY } }
        else
          spawnPiece nextP { st with board := lockPiece p st.board }

/-- `function flipGrid()` (game.js 756-766): reverse the row order of both
matrices; the per-row copies in the source preserve contents exactly. -/
def flipBoard (brd : Board) : Board :=
  ⟨brd.grid.reverse, brd.blockTypes.reverse⟩

/-- Distance of a piece (top row `y`, given height) from the floor its gravity
pulls it toward: the bottom edge under DOWN, the top edge under UP. -/
def floorDist (grav : Gravity) (y : Int) (height : Nat) : Int :=
  match grav with
  | .DOWN => (ROWS : Int) - y - height
  | .UP => y

/-- `function shiftGravity()` (game.js 689-728): record the piece's offset
from its spawn edge, toggle gravity, flip the grid, reproject the piece, and
snap it to the new spawn edge if the reprojected position collides. -/
def shiftGravity (st : GameState) : GameState :=
  let rel : Option Int := st.piece.map fun p =>
    match st.gravity with
    | .DOWN => p.y
    | .UP => (ROWS : Int) - p.y - p.shape.length
  let newGrav := toggleGravity st.gravity
  let brd := flipBoard st.board
  let newPiece : Option Piece :=
    match st.piece, rel with
    | some p, some d =>
        let y1 : Int := match newGrav with
          | .DOWN => d
          | .UP => (ROWS : Int) - d - p.shape.length
        let y2 : Int :=
          if collision brd.grid p.x y1 p.shape then
            match newGrav with
            | .DOWN => 0
            | .UP => (ROWS : Int) - p.shape.length
          else y1
        some { p with y := y2 }
    | _, _ => st.piece
  { st with gravity := newGrav, board := brd, piece := newPiece }

/-- Observable events of the lock / flash / spawn protocol, used to model the
control order of `drop` (game.js 362-377) and `flashLines` (game.js 626-647). -/
inductive GameEvent where
  | lockEv : GameEvent
  | scanEv : GameEvent
  | flashStartEv : GameEvent
  | spawnEv : GameEvent
  | removeEv : GameEvent
deriving DecidableEq, Repr

/-- The scheduling state: the trace of events so far, and whether a removal
callback handed to `flashLines` is still pending (the source's
`flashingLines.active` flag together with the armed `setInterval`). -/
structure FlashSched where
  trace : List GameEvent
  removalPending : Bool
deriving DecidableEq, Repr

/-- `flashLines(rows, cols, callback)` (game.js 626-647): record the flashing
lines, arm the flash timer, and return at once - the callback stays pending
until the timer has ticked `totalFlashes` times. -/
def flashLinesSched (s : FlashSched) : FlashSched :=
  ⟨s.trace ++ [GameEvent.flashStartEv], true⟩

/-- The synchronous part of `clearLines()` (game.js 494-621): scan, and when
any line qualifies, hand the removal callback to `flashLines`. -/
def clearLinesSched (found : Bool) (s : FlashSched) : FlashSched :=
  let s1 : FlashSched := ⟨s.trace ++ [GameEvent.scanEv], s.removalPending⟩
  if found then flashLinesSched s1 else s1

/-- Event bookkeeping of `spawnPiece()` when invoked from `drop`. -/
def spawnSched (s : FlashSched) : FlashSched :=
  ⟨s.trace ++ [GameEvent.spawnEv], s.removalPending⟩

/-- Event bookkeeping of `lockPiece()` when invoked from `drop`. -/
def lockSched (s : FlashSched) : FlashSched :=
  ⟨s.trace ++ [GameEvent.lockEv], s.removalPending⟩

/-- The contact branch of `drop()` (game.js 371-376), in source order:
`lockPiece(); clearLines(); spawnPiece();` all within the same call. -/
def dropLockSched (found : Bool) (s : FlashSched) : FlashSched :=
  spawnSched (clearLinesSched found (lockSched s))

/-- The final flash tick (game.js 636-646): once `flashCount` reaches
`totalFlashes`, the interval is cancelled and the removal callback runs. -/
def flashDoneSched (s : FlashSched) : FlashSched :=
  if s.removalPending then ⟨s.trace ++ [GameEvent.removeEv], false⟩ else s

/-- The board `resetGame` builds (game.js 204-214): `ROWS` rows of `COLS`
zeroes in both matrices. -/
def resetBoard : Board :=
  ⟨List.replicate ROWS emptyRow, List.replicate ROWS emptyRow⟩

/-- The counters `resetGame` sets (game.js 215-218). -/
def resetCounters : ScoreState := ⟨0, 0, 1, 700⟩

/-- A column of grid `g` holds no gap below (DOWN) or above (UP) an occupied
cell: every cell on the floor side of an occupied cell is occupied too. -/
def compactedToward (grav : Gravity) (g : Grid) (c : Nat) : Prop :=
  match grav with
  | .DOWN => ∀ r r', r < r' → r' < ROWS → cellAt g r c ≠ 0 → cellAt g r' c ≠ 0
  | .UP => ∀ r r', r < r' → r' < ROWS → cellAt g r' c ≠ 0 → cellAt g r c ≠ 0

/-- Well-formedness of the board: both matrices are `ROWS x COLS`, every
`blockTypes` entry is `NORMAL` (0) or `BOMB` (1), and an empty grid cell
always carries the `NORMAL` tag.  (In this embedding a color tag is any
nonzero `Nat`, so "0 or a color tag" holds by construction for the grid.) -/
def WFBoard (brd : Board) : Prop :=
  brd.grid.length = ROWS ∧
  brd.blockTypes.length = ROWS ∧
  (∀ row ∈ brd.grid, row.length = COLS) ∧
  (∀ row ∈ brd.blockTypes, row.length = COLS) ∧
  (∀ r < ROWS, ∀ c < COLS, cellAt brd.blockTypes r c ≤ 1) ∧
  (∀ r < ROWS, ∀ c < COLS, cellAt brd.grid r c = 0 → cellAt brd.blockTypes r c = 0)

instance (brd : Board) : Decidable (WFBoard brd) := by
  unfold WFBoard; infer_instance

/-- Claim-side bomb coordinate (claim C3 / spec 4.3-4.4), for comparison with
the source: the row a bomb cell would occupy after the row removals of the
same clear cycle shifted indices (DOWN removals push the rows above them down
by one; UP removals pull the rows below them up by one). -/
def shiftAdjustedRow (grav : Gravity) (rows : List Nat) (r : Nat) : Nat :=
  match grav with
  | .DOWN => r + (rows.filter (fun x => r < x)).length
  | .UP => r - (rows.filter (fun x => x < r)).length

/-- Claim-side variant of `clearResolve` (claim C3): identical to the source
pipeline except that each queued bomb detonates at its shift-adjusted
position instead of the position recorded at scan time. -/
def clearResolveShiftAdjusted (grav : Gravity) (st : ClearState) : ClearState :=
  let rows := scanRows st.board.grid
  let cols := scanCols st.board.grid
  if rows.isEmpty && cols.isEmpty then st
  else
    let bombs := (collectBombs st.board.blockTypes rows cols).map
      (fun q => (shiftAdjustedRow grav rows q.1, q.2))
    let afterRows := clearRows grav st.board rows.reverse
    let afterCols := clearCols afterRows cols
    let afterBombs := explodeBombs ⟨afterCols, st.counters.score⟩ bombs
    let n := rows.length + cols.length
    ⟨afterBombs.board,
     applyScore { st.counters with score := afterBombs.score } n⟩

/-- The amended scoring contract of claim C6, as a predicate on the scoring
step: the earned score uses the level as updated by this same clear. -/
def scoreClaimAmended (s : ScoreState) (n : Nat) : Prop :=
  (applyScore s n).lines = s.lines + n ∧
  (applyScore s n).level = (s.lines + n) / 3 + 1 ∧
  (applyScore s n).score = s.score + baseScore n * (applyScore s n).level ∧
  ((applyScore s n).level > s.level →
    (applyScore s n).dropInterval = max 100 (700 - (applyScore s n).level * 50)) ∧
  ((applyScore s n).level = s.level →
    (applyScore s n).dropInterval = s.dropInterval) ∧
  baseScore 1 = 100 ∧ baseScore 2 = 300 ∧ baseScore 3 = 500 ∧
  (∀ m, 4 ≤ m → baseScore m = 800) ∧
  (s.lines + n = 6 → (applyScore s n).level = 3)

/-- An all-occupied row, for concrete test boards. -/
def fullRow : List Nat := List.replicate COLS 1

/-- A row occupied only in column 0, for concrete test boards. -/
def col0Row : List Nat := 1 :: List.replicate 9 0

/-- Concrete board for claim C5: empty except rows 16 and 17, both full. -/
def c5Board : Board :=
  ⟨List.replicate 16 emptyRow ++ [fullRow, fullRow], List.replicate ROWS emptyRow⟩

/-- Clear-state wrapper around `c5Board` with freshly reset counters. -/
def c5State : ClearState := ⟨c5Board, resetCounters⟩

/-- Concrete grid for claim C3: column 0 full, row 10 full, one extra
occupied cell at `(6, 1)`. -/
def c3Grid : Grid :=
  List.replicate 6 col0Row ++ [[1, 1, 0, 0, 0, 0, 0, 0, 0, 0]] ++
    List.replicate 3 col0Row ++ [fullRow] ++ List.replicate 7 col0Row

/-- Block types for claim C3: a single bomb at `(5, 0)`. -/
def c3Types : Grid :=
  List.replicate 5 emptyRow ++ [col0Row] ++ List.replicate 12 emptyRow

/-- Clear-state wrapper around the C3 fixture with freshly reset counters. -/
def c3State : ClearState := ⟨⟨c3Grid, c3Types⟩, resetCounters⟩

/-- Concrete board for claim C1's witness: column 0 full, all else empty. -/
def c1Board : Board :=
  ⟨List.replicate ROWS col0Row, List.replicate ROWS emptyRow⟩

/-- Clear-state wrapper around `c1Board` with freshly reset counters. -/
def c1State : ClearState := ⟨c1Board, resetCounters⟩

/-- Number of occupied cells of grid `g` inside the clipped 3x3 bomb box. -/
def boxOccCount (g : Grid) (br bc : Nat) : Nat :=
  ((boxRows br).map
    (fun r => ((boxCols bc).filter (fun c => cellAt g r c != 0)).length)).sum

/-- The amended bomb-explosion contract of claim C3, for a detonation at the
recorded coordinates `(br, bc)`: bombs are queued exactly once per
coordinate; the clearing loop empties exactly the clipped 3x3 box and leaves
every other cell alone; the bonus is a flat 10 points per occupied box cell;
columns outside the box are untouched by the whole explosion while every box
column is afterwards compacted downward; and the box is the 3x3 neighbourhood
clipped to grid bounds. -/
def bombClaimAmended (s : ScoredBoard) (br bc : Nat) : Prop :=
  (∀ (tb gb : Grid), (collectBombs tb (scanRows gb) (scanCols gb)).Nodup) ∧
  (∀ r c, r ∈ boxRows br → c ∈ boxCols bc →
    cellAt (bombBoxClear s br bc).board.grid r c = 0) ∧
  (∀ r c, r ∉ boxRows br ∨ c ∉ boxCols bc →
    cellAt (bombBoxClear s br bc).board.grid r c = cellAt s.board.grid r c) ∧
  (bombBoxClear s br bc).score =
    s.score + 10 * boxOccCount s.board.grid br bc ∧
  (explodeBomb s br bc).score =
    s.score + 10 * boxOccCount s.board.grid br bc ∧
  (∀ r c, c ∉ boxCols bc →
    cellAt (explodeBomb s br bc).board.grid r c = cellAt s.board.grid r c) ∧
  (∀ c ∈ boxCols bc,
    compactedToward Gravity.DOWN (explodeBomb s br bc).board.grid c) ∧
  (∀ r, r ∈ boxRows br ↔ r < ROWS ∧ br ≤ r + 1 ∧ r ≤ br + 1) ∧
  (∀ c, c ∈ boxCols bc ↔ c < COLS ∧ bc ≤ c + 1 ∧ c ≤ bc + 1)

/-!  ### Infrastructure lemmas about cells, writes and folds  -/

theorem getD_set (l : List Nat) (n i a : Nat) :
    (l.set n a).getD i 0 = if n = i ∧ n < l.length then a else l.getD i 0 := by
  by_cases h : n = i
  · subst h
    by_cases h2 : n < l.length
    · rw [if_pos ⟨rfl, h2⟩, List.getD_eq_getElem?_getD, List.getElem?_set,
        if_pos rfl, if_pos h2]
      rfl
    · rw [if_neg (by tauto), List.set_eq_of_length_le (by omega)]
  · rw [if_neg (by tauto), List.getD_eq_getElem?_getD,
      List.getD_eq_getElem?_getD, List.getElem?_set, if_neg h]

theorem getDRow_set (g : Grid) (n i : Nat) (row : List Nat) :
    (g.set n row).getD i [] = if n = i ∧ n < g.length then row else g.getD i [] := by
  by_cases h : n = i
  · subst h
    by_cases h2 : n < g.length
    · rw [if_pos ⟨rfl, h2⟩, List.getD_eq_getElem?_getD, List.getElem?_set,
        if_pos rfl, if_pos h2]
      rfl
    · rw [if_neg (by tauto), List.set_eq_of_length_le (by omega)]
  · rw [if_neg (by tauto), List.getD_eq_getElem?_getD,
      List.getD_eq_getElem?_getD, List.getElem?_set, if_neg h]

theorem length_setCell (g : Grid) (r c v : Nat) :
    (setCell g r c v).length = g.length := by
  simp [setCell]

theorem rowLen_setCell (g : Grid) (r c v i : Nat) :
    ((setCell g r c v).getD i []).length = (g.getD i []).length := by
  rw [setCell, getDRow_set]
  split
  · rename_i h
    rw [← h.1]
    simp
  · rfl

theorem cellAt_setCell (g : Grid) (r c v r' c' : Nat) :
    cellAt (setCell g r c v) r' c' =
      if r = r' ∧ c = c' ∧ r < g.length ∧ c < (g.getD r []).length then v
      else cellAt g r' c' := by
  unfold cellAt setCell
  rw [getDRow_set]
  by_cases hr : r = r' ∧ r < g.length
  · rw [if_pos hr, ← hr.1, getD_set]
    by_cases hc : c = c' ∧ c < (g.getD r []).length
    · rw [if_pos hc, if_pos ⟨rfl, hc.1, hr.2, hc.2⟩]
    · rw [if_neg hc, if_neg (by tauto)]
  · rw [if_neg hr, if_neg (by tauto)]

theorem cellAt_setCell_ne (g : Grid) (r c v r' c' : Nat)
    (h : ¬(r = r' ∧ c = c')) :
    cellAt (setCell g r c v) r' c' = cellAt g r' c' := by
  rw [cellAt_setCell, if_neg (by tauto)]

theorem cellAt_setCell_self (g : Grid) (r c v : Nat)
    (hr : r < g.length) (hc : c < (g.getD r []).length) :
    cellAt (setCell g r c v) r c = v := by
  rw [cellAt_setCell, if_pos ⟨rfl, rfl, hr, hc⟩]

theorem cellAt_setCell_zero (g : Grid) (r c r' c' : Nat) :
    cellAt (setCell g r c 0) r' c' = 0 ∨
      cellAt (setCell g r c 0) r' c' = cellAt g r' c' := by
  rw [cellAt_setCell]
  split
  · exact Or.inl rfl
  · exact Or.inr rfl

theorem cellAt_of_len_le (g : Grid) (r c : Nat) (h : g.length ≤ r) :
    cellAt g r c = 0 := by
  unfold cellAt
  rw [List.getD_eq_default _ _ h]
  rfl

theorem cellAt_of_rowlen_le (g : Grid) (r c : Nat)
    (h : (g.getD r []).length ≤ c) : cellAt g r c = 0 :=
  List.getD_eq_default _ _ h

theorem cellAt_setCell_write_zero (g : Grid) (r c : Nat) :
    cellAt (setCell g r c 0) r c = 0 := by
  by_cases hr : r < g.length
  · by_cases hc : c < (g.getD r []).length
    · exact cellAt_setCell_self g r c 0 hr hc
    · rw [cellAt_setCell, if_neg (by tauto)]
      exact cellAt_of_rowlen_le g r c (by omega)
  · rw [cellAt_setCell, if_neg (by tauto)]
    exact cellAt_of_len_le g r c (by omega)

/-- Folding a step function that preserves a predicate preserves it, where
each list element may be assumed to satisfy a side condition. -/
theorem foldl_preserve {α β : Type} (P : α → Prop) (Q : β → Prop)
    (f : α → β → α) :
    ∀ (l : List β) (a : α), (∀ b x, P b → Q x → P (f b x)) →
      (∀ x ∈ l, Q x) → P a → P (l.foldl f a)
  | [], _, _, _, ha => ha
  | x :: l, a, hstep, hl, ha =>
      foldl_preserve P Q f l (f a x) hstep
        (fun y hy => hl y (List.mem_cons_of_mem x hy))
        (hstep a x ha (hl x (List.mem_cons_self x l)))

/-!  ### Claim C4: collision detection  -/

/-- Claim C4: for every shape mask, position `(x, y)` and grid state,
`collision x y shape` returns true iff some set cell of the shape maps to a
coordinate `(x+col, y+row)` outside `[0,COLS)×[0,ROWS)` or to an occupied
grid cell, and false otherwise.  The embedded `collision` is a pure function
of the grid, so it cannot mutate it. -/
theorem C4_collision_iff (g : Grid) (x y : Int) (shape : List (List Nat)) :
    collision g x y shape = true ↔
      ∃ row col, row < shape.length ∧ col < (shape.getD row []).length ∧
        (shape.getD row []).getD col 0 ≠ 0 ∧
        (x + col < 0 ∨ (COLS : Int) ≤ x + col ∨ y + row < 0 ∨
          (ROWS : Int) ≤ y + row ∨
          cellAt g (y + row).toNat (x + col).toNat ≠ 0) := by
  unfold collision
  rw [List.any_eq_true]
  constructor
  · rintro ⟨row, hrow, hany⟩
    rw [List.any_eq_true] at hany
    obtain ⟨col, hcol, hcell⟩ := hany
    rw [List.mem_range] at hrow
    rw [List.mem_range] at hcol
    rw [Bool.and_eq_true, bne_iff_ne] at hcell
    refine ⟨row, col, hrow, hcol, hcell.1, ?_⟩
    rcases hcell with ⟨-, hhit⟩
    by_cases hb : x + col < 0 ∨ (COLS : Int) ≤ x + col ∨ y + row < 0 ∨
        (ROWS : Int) ≤ y + row
    · tauto
    · push_neg at hb
      rw [if_neg (by simp only [Bool.or_eq_true, decide_eq_true_eq]; push_neg; omega),
        bne_iff_ne] at hhit
      tauto
  · rintro ⟨row, col, hrow, hcol, hset, hbad⟩
    refine ⟨row, List.mem_range.mpr hrow, ?_⟩
    rw [List.any_eq_true]
    refine ⟨col, List.mem_range.mpr hcol, ?_⟩
    rw [Bool.and_eq_true, bne_iff_ne]
    refine ⟨hset, ?_⟩
    by_cases hb : x + col < 0 ∨ (COLS : Int) ≤ x + col ∨ y + row < 0 ∨
        (ROWS : Int) ≤ y + row
    · rw [if_pos (by simp only [Bool.or_eq_true, decide_eq_true_eq]; omega)]
    · push_neg at hb
      rw [if_neg (by simp only [Bool.or_eq_true, decide_eq_true_eq]; push_neg; omega),
        bne_iff_ne]
      rcases hbad with h1 | h1 | h1 | h1 | h1
      · omega
      · omega
      · omega
      · omega
      · exact h1

/-!  ### Claim C2: flash phase versus drops and spawns  -/

/-- Counterexample to claim C2: on a lock that triggers a flash, the source
runs `lockPiece(); clearLines(); spawnPiece();` synchronously, so the next
piece spawns while the removal callback is still pending - the spawn does not
wait for the flash to complete, contradicting the claim that the spawn occurs
only after the removal callback has run. -/
theorem C2_counterexample :
    (dropLockSched true ⟨[], false⟩).trace =
      [GameEvent.lockEv, GameEvent.scanEv, GameEvent.flashStartEv,
        GameEvent.spawnEv] ∧
    (dropLockSched true ⟨[], false⟩).removalPending = true ∧
    GameEvent.removeEv ∉ (dropLockSched true ⟨[], false⟩).trace := by
  refine ⟨rfl, rfl, ?_⟩
  decide

/-- Claim C2 amended: on every lock that triggers a flash, the synchronous
drop call appends lock, scan, flash-start and spawn to the trace in that
order and leaves the removal callback pending; the removal event is appended
only by the later final flash tick.  Since this holds for every starting
state - including one whose removal is already pending - a pending flash
blocks neither the next spawn nor a second clear scan. -/
theorem C2_amended (s : FlashSched) :
    (dropLockSched true s).trace =
      s.trace ++ [GameEvent.lockEv, GameEvent.scanEv, GameEvent.flashStartEv,
        GameEvent.spawnEv] ∧
    (dropLockSched true s).removalPending = true ∧
    (flashDoneSched (dropLockSched true s)).trace =
      (dropLockSched true s).trace ++ [GameEvent.removeEv] ∧
    (flashDoneSched (dropLockSched true s)).removalPending = false := by
  refine ⟨?_, rfl, rfl, rfl⟩
  simp [dropLockSched, spawnSched, clearLinesSched, flashLinesSched, lockSched]

/-!  ### Claim C5: row clearing  -/

/-- Claim C5 is a code bug: with gravity UP and the two bottom rows 16 and 17
both full, the removal loop first removes row 16 (appending an empty row at
the bottom), which shifts the old row 17 up to index 16; the second iteration
then removes index 17 - the freshly appended empty row - so a qualifying full
row survives at index 16 even though the `lines` counter reports 2 cleared
rows.  Under gravity DOWN the same input clears both rows correctly. -/
theorem C5_up_gravity_skips_row :
    scanRows c5State.board.grid = [17, 16] ∧
    rowFull (clearResolve Gravity.UP c5State).board.grid 16 = true ∧
    (clearResolve Gravity.UP c5State).counters.lines = 2 ∧
    (List.range ROWS).all
      (fun r => !rowFull (clearResolve Gravity.DOWN c5State).board.grid r) =
      true := by
  refine ⟨?_, ?_, ?_, ?_⟩ <;> decide

/-!  ### Claim C6: scoring and leveling  -/

/-- Counterexample to claim C6: in the state with 7 cumulative lines at level
3 (which satisfies the documented invariant `level = floor(lines/3) + 1`),
clearing exactly 2 lines first advances the level to 4 and then awards
`baseScore(2) * 4 = 1200` points, not the claimed `baseScore(2) * 3 = 900`:
the source multiplies by the level as already updated by this same clear. -/
theorem C6_counterexample :
    (3 : Nat) = 7 / 3 + 1 ∧
    (applyScore ⟨0, 7, 3, 550⟩ 2).score = 1200 ∧
    baseScore 2 * 3 = 900 ∧
    (applyScore ⟨0, 7, 3, 550⟩ 2).score ≠ baseScore 2 * 3 := by
  decide

/-- Claim C6 amended: under the level invariant, a clear of `n` lines adds
`n` to the cumulative count, maintains `level = floor(lines/3) + 1` (so after
6 cumulative lines the level is exactly 3), awards `baseScore(n)` times the
updated level (1=100, 2=300, 3=500, 4+=800), and on level-up sets the drop
interval to `max(100, 700 - level*50)`, leaving it unchanged otherwise. -/
theorem applyScore_eq (s : ScoreState) (n : Nat) :
    applyScore s n =
      { score := s.score + baseScore n *
          (if (s.lines + n) / 3 + 1 > s.level then (s.lines + n) / 3 + 1
           else s.level)
        lines := s.lines + n
        level := if (s.lines + n) / 3 + 1 > s.level then (s.lines + n) / 3 + 1
          else s.level
        dropInterval :=
          if (s.lines + n) / 3 + 1 > s.level then
            max 100 (700 - ((s.lines + n) / 3 + 1) * 50)
          else s.dropInterval } := by
  unfold applyScore
  by_cases hc : (s.lines + n) / 3 + 1 > s.level
  · simp only [if_pos hc]
  · simp only [if_neg hc]

theorem C6_amended (s : ScoreState) (n : Nat) (h : s.level = s.lines / 3 + 1) :
    scoreClaimAmended s n := by
  have hmono : s.lines / 3 + 1 ≤ (s.lines + n) / 3 + 1 :=
    Nat.add_le_add_right (Nat.div_le_div_right (Nat.le_add_right _ _)) 1
  have hbase4 : ∀ m, 4 ≤ m → baseScore m = 800 := by
    intro m hm
    unfold baseScore
    rw [if_neg (by simp; omega), if_neg (by simp; omega), if_neg (by simp; omega)]
  have hlines : (applyScore s n).lines = s.lines + n := by rw [applyScore_eq]
  have hlevel : (applyScore s n).level = (s.lines + n) / 3 + 1 := by
    rw [applyScore_eq]
    dsimp only
    split
    · rfl
    · omega
  have hscore : (applyScore s n).score =
      s.score + baseScore n * (applyScore s n).level := by rw [applyScore_eq]
  refine ⟨hlines, hlevel, hscore, ?_, ?_, rfl, rfl, rfl, hbase4, ?_⟩
  · intro hup
    rw [hlevel] at hup ⊢
    rw [applyScore_eq]
    dsimp only
    rw [if_pos hup]
  · intro hq
    rw [hlevel] at hq
    have hne : ¬((s.lines + n) / 3 + 1 > s.level) := by omega
    rw [applyScore_eq]
    dsimp only
    rw [if_neg hne]
  · intro h6
    rw [hlevel, h6]

/-- Witness for the amended claim C6: the invariant-satisfying state with 6
lines at level 3 and a 2-line clear. -/
theorem C6_amended_witness :
    (⟨900, 6, 3, 550⟩ : ScoreState).level = 6 / 3 + 1 ∧
    scoreClaimAmended ⟨900, 6, 3, 550⟩ 2 :=
  ⟨by decide, C6_amended ⟨900, 6, 3, 550⟩ 2 (by decide)⟩

/-!  ### Claim C7: rotation  -/

theorem headD_len (s : List (List Nat)) (w : Nat) (hh : 0 < s.length)
    (hrect : ∀ row ∈ s, row.length = w) : (s.headD []).length = w := by
  cases s with
  | nil => simp at hh
  | cons a t => exact hrect a (List.mem_cons_self a t)

theorem length_rotateShape (s : List (List Nat)) :
    (rotateShape s).length = (s.headD []).length := by
  simp [rotateShape]

theorem rect_rotateShape (s : List (List Nat)) :
    ∀ row ∈ rotateShape s, row.length = s.length := by
  intro row hrow
  unfold rotateShape at hrow
  obtain ⟨c, -, hc⟩ := List.mem_map.mp hrow
  rw [← hc]
  simp

theorem getDRow_rotateShape (s : List (List Nat)) (c : Nat)
    (hc : c < (s.headD []).length) :
    (rotateShape s).getD c [] = s.reverse.map (fun row => row.getD c 0) := by
  unfold rotateShape
  rw [List.getD_eq_getElem?_getD, List.getElem?_map,
    List.getElem?_range hc]
  rfl

theorem cellAt_rotateShape (s : List (List Nat)) (w : Nat)
    (hh : 0 < s.length) (hrect : ∀ row ∈ s, row.length = w)
    (c r : Nat) (hc : c < w) (hr : r < s.length) :
    cellAt (rotateShape s) c r = cellAt s (s.length - 1 - r) c := by
  have h0 : (s.headD []).length = w := headD_len s w hh hrect
  unfold cellAt
  rw [getDRow_rotateShape s c (by omega)]
  rw [List.getD_eq_getElem?_getD, List.getElem?_map,
    List.getElem?_reverse hr, List.getElem?_eq_getElem (show s.length - 1 - r < s.length by omega),
    List.getD_eq_getElem _ _ (show s.length - 1 - r < s.length by omega)]
  rfl

theorem matrixExt (a b : List (List Nat)) (hl : a.length = b.length)
    (hrow : ∀ i, i < a.length → (a.getD i []).length = (b.getD i []).length)
    (hc : ∀ i j, cellAt a i j = cellAt b i j) : a = b := by
  apply List.ext_getElem hl
  intro i h1 h2
  apply List.ext_getElem
  · have := hrow i h1
    rwa [List.getD_eq_getElem _ _ h1, List.getD_eq_getElem _ _ h2] at this
  · intro j hj1 hj2
    have := hc i j
    rwa [cellAt, cellAt, List.getD_eq_getElem _ _ h1, List.getD_eq_getElem _ _ h2,
      List.getD_eq_getElem _ _ hj1, List.getD_eq_getElem _ _ hj2] at this

/-- Claim C7: the rotation builds `rotated[c][r] = shape[rows - 1 - r][c]`,
and rotating any nonempty rectangular mask four times returns the original
mask. -/
theorem C7_rotate_four_times (s : List (List Nat)) (w : Nat)
    (hh : 0 < s.length) (hw : 0 < w) (hrect : ∀ row ∈ s, row.length = w) :
    (∀ c r, c < w → r < s.length →
      cellAt (rotateShape s) c r = cellAt s (s.length - 1 - r) c) ∧
    rotateShape (rotateShape (rotateShape (rotateShape s))) = s := by
  set r1 := rotateShape s with hr1
  have hlen1 : r1.length = w := by
    rw [hr1, length_rotateShape, headD_len s w hh hrect]
  have hrect1 : ∀ row ∈ r1, row.length = s.length := rect_rotateShape s
  set r2 := rotateShape r1 with hr2
  have hlen2 : r2.length = s.length := by
    rw [hr2, length_rotateShape, headD_len r1 s.length (by omega) hrect1]
  have hrect2 : ∀ row ∈ r2, row.length = w := by
    intro row hrow
    rw [rect_rotateShape r1 row hrow, hlen1]
  set r3 := rotateShape r2 with hr3
  have hlen3 : r3.length = w := by
    rw [hr3, length_rotateShape, headD_len r2 w (by omega) hrect2]
  have hrect3 : ∀ row ∈ r3, row.length = s.length := by
    intro row hrow
    rw [rect_rotateShape r2 row hrow, hlen2]
  set r4 := rotateShape r3 with hr4
  have hlen4 : r4.length = s.length := by
    rw [hr4, length_rotateShape, headD_len r3 s.length (by omega) hrect3]
  have hrect4 : ∀ row ∈ r4, row.length = w := by
    intro row hrow
    rw [rect_rotateShape r3 row hrow, hlen3]
  refine ⟨fun c r hc hr => cellAt_rotateShape s w hh hrect c r hc hr, ?_⟩
  apply matrixExt r4 s (by omega)
  · intro i hi
    have hi2 : i < s.length := by omega
    have e1 : r4.getD i [] ∈ r4 := by
      rw [List.getD_eq_getElem _ _ hi]
      exact List.getElem_mem hi
    have e2 : s.getD i [] ∈ s := by
      rw [List.getD_eq_getElem _ _ hi2]
      exact List.getElem_mem hi2
    rw [hrect4 _ e1, hrect _ e2]
  · intro i j
    by_cases hij : i < s.length ∧ j < w
    · obtain ⟨hi, hj⟩ := hij
      have s1 : cellAt r4 i j = cellAt r3 (w - 1 - j) i := by
        have := cellAt_rotateShape r3 s.length (by omega) hrect3 i j (by omega) (by omega)
        rwa [hlen3] at this
      have s2 : cellAt r3 (w - 1 - j) i = cellAt r2 (s.length - 1 - i) (w - 1 - j) := by
        have := cellAt_rotateShape r2 w (by omega) hrect2 (w - 1 - j) i (by omega) (by omega)
        rwa [hlen2] at this
      have s3 : cellAt r2 (s.length - 1 - i) (w - 1 - j) = cellAt r1 j (s.length - 1 - i) := by
        have hq := cellAt_rotateShape r1 s.length (by omega) hrect1
          (s.length - 1 - i) (w - 1 - j) (by omega) (by omega)
        rw [hlen1, show w - 1 - (w - 1 - j) = j from by omega] at hq
        exact hq
      have s4 : cellAt r1 j (s.length - 1 - i) = cellAt s i j := by
        have hq := cellAt_rotateShape s w hh hrect j (s.length - 1 - i) (by omega) (by omega)
        rw [show s.length - 1 - (s.length - 1 - i) = i from by omega] at hq
        exact hq
      rw [s1, s2, s3, s4]
    · push_neg at hij
      by_cases hi : i < s.length
      · have hj : w ≤ j := by omega
        have e1 : r4.getD i [] ∈ r4 := by
          rw [List.getD_eq_getElem _ _ (show i < r4.length by omega)]
          exact List.getElem_mem (show i < r4.length by omega)
        have e2 : s.getD i [] ∈ s := by
          rw [List.getD_eq_getElem _ _ hi]
          exact List.getElem_mem hi
        rw [cellAt_of_rowlen_le r4 i j (by rw [hrect4 _ e1]; omega),
          cellAt_of_rowlen_le s i j (by rw [hrect _ e2]; omega)]
      · rw [cellAt_of_len_le r4 i j (by omega), cellAt_of_len_le s i j (by omega)]

/-- Witness for claim C7 at the small-L mask `[[1,0],[1,1]]`. -/
theorem C7_rotate_witness :
    0 < ([[1, 0], [1, 1]] : List (List Nat)).length ∧ 0 < 2 ∧
    (∀ row ∈ ([[1, 0], [1, 1]] : List (List Nat)), row.length = 2) ∧
    ((∀ c r, c < 2 → r < ([[1, 0], [1, 1]] : List (List Nat)).length →
      cellAt (rotateShape [[1, 0], [1, 1]]) c r =
        cellAt [[1, 0], [1, 1]] (([[1, 0], [1, 1]] : List (List Nat)).length - 1 - r) c) ∧
     rotateShape (rotateShape (rotateShape (rotateShape [[1, 0], [1, 1]]))) =
       [[1, 0], [1, 1]]) :=
  ⟨by decide, by decide, by decide,
   C7_rotate_four_times [[1, 0], [1, 1]] 2 (by decide) (by decide) (by decide)⟩

/-!  ### Claim C8: spawn collision and game over  -/

/-- Claim C8: a colliding spawn raises the terminal flag immediately and
leaves the board untouched; a non-colliding spawn places the piece at the
centered column `COLS/2 - 1` with vertical origin `0` under DOWN gravity and
`ROWS - pieceHeight` under UP gravity; the colliding spawn is the sole
game-over trigger (move and rotate never change the flag, and a drop raises
it only through the colliding spawn that follows a lock); and once the game
is over the commands mutate nothing. -/
theorem C8_spawn_gameOver (nextP : Piece) (st : GameState) (d : Int) :
    (collision st.board.grid spawnX (spawnY st.gravity nextP.shape.length)
        nextP.shape = true →
      (spawnPiece nextP st).isOver = true ∧
      (spawnPiece nextP st).board = st.board) ∧
    (collision st.board.grid spawnX (spawnY st.gravity nextP.shape.length)
        nextP.shape = false →
      (spawnPiece nextP st).isOver = st.isOver ∧
      (spawnPiece nextP st).board = st.board ∧
      (spawnPiece nextP st).piece =
        some { nextP with x := spawnX,
                          y := spawnY st.gravity nextP.shape.length } ∧
      spawnX = (COLS : Int) / 2 - 1 ∧
      spawnY Gravity.DOWN nextP.shape.length = 0 ∧
      spawnY Gravity.UP nextP.shape.length = (ROWS : Int) - nextP.shape.length) ∧
    (moveOp d st).isOver = st.isOver ∧
    (rotateOp st).isOver = st.isOver ∧
    (st.isOver = false → (dropOp nextP st).isOver = true →
      ∃ p, st.piece = some p ∧
        collision st.board.grid p.x
          (match st.gravity with | .DOWN => p.y + 1 | .UP => p.y - 1)
          p.shape = true ∧
        collision (lockPiece p st.board).grid spawnX
          (spawnY st.gravity nextP.shape.length) nextP.shape = true) ∧
    (st.isOver = true →
      moveOp d st = st ∧ rotateOp st = st ∧ dropOp nextP st = st) := by
  refine ⟨?_, ?_, ?_, ?_, ?_, ?_⟩
  · intro hcol
    unfold spawnPiece
    rw [if_pos hcol]
    exact ⟨rfl, rfl⟩
  · intro hcol
    unfold spawnPiece
    rw [if_neg (by simp [hcol])]
    exact ⟨rfl, rfl, rfl, rfl, rfl, rfl⟩
  · unfold moveOp
    split
    · rfl
    · split
      · rfl
      · split
        · rfl
        · rfl
  · unfold rotateOp
    split
    · rfl
    · split
      · rfl
      · split
        · rfl
        · rfl
  · intro hnot hover
    unfold dropOp at hover
    rw [if_neg (by simp [hnot])] at hover
    rcases hp : st.piece with - | p
    · rw [hp] at hover
      rw [hnot] at hover
      exact absurd hover (by simp)
    · rw [hp] at hover
      dsimp only at hover
      refine ⟨p, rfl, ?_⟩
      by_cases hfall : collision st.board.grid p.x
          (match st.gravity with | .DOWN => p.y + 1 | .UP => p.y - 1) p.shape = true
      · rw [if_neg (by simp [hfall])] at hover
        refine ⟨hfall, ?_⟩
        unfold spawnPiece at hover
        by_cases hsp : collision (lockPiece p st.board).grid spawnX
            (spawnY st.gravity nextP.shape.length) nextP.shape = true
        · exact hsp
        · rw [if_neg (by simpa using hsp)] at hover
          rw [hnot] at hover
          exact absurd hover (by simp)
      · simp only [Bool.not_eq_true] at hfall
        rw [if_pos (by simp [hfall])] at hover
        rw [hnot] at hover
        exact absurd hover (by simp)
  · intro hover
    refine ⟨?_, ?_, ?_⟩
    · unfold moveOp
      rw [if_pos hover]
    · unfold rotateOp
      rw [if_pos hover]
    · unfold dropOp
      rw [if_pos hover]

/-- Witness for claim C8: a single-cell piece on the reset board (its spawn
does not collide), and the frozen-state clause on a finished state. -/
theorem C8_spawn_witness :
    (collision resetBoard.grid spawnX
        (spawnY Gravity.DOWN [[1]].length) [[1]] = false ∧
      (spawnPiece ⟨[[1]], 7, 0, 0, false⟩
          ⟨resetBoard, none, Gravity.DOWN, false⟩).isOver = false) ∧
    moveOp 1 ⟨resetBoard, none, Gravity.DOWN, true⟩ =
      ⟨resetBoard, none, Gravity.DOWN, true⟩ := by
  constructor
  · have h := (C8_spawn_gameOver ⟨[[1]], 7, 0, 0, false⟩
      ⟨resetBoard, none, Gravity.DOWN, false⟩ 1).2.1
    refine ⟨by decide, ?_⟩
    exact (h (by decide)).1
  · exact ((C8_spawn_gameOver ⟨[[1]], 7, 0, 0, false⟩
      ⟨resetBoard, none, Gravity.DOWN, true⟩ 1).2.2.2.2.2 rfl).1

/-!  ### Claim C9: gravity shift  -/

/-- Claim C9: a gravity shift toggles the direction, reverses the row order
of both matrices (cell contents preserved), and repositions the falling piece
so that its distance from the new floor equals its distance from the old
floor; when the reprojected position collides the piece snaps to the
direction-appropriate spawn edge. -/
theorem C9_shiftGravity (st : GameState) (p : Piece)
    (hp : st.piece = some p) (hlen : st.board.grid.length = ROWS) :
    (shiftGravity st).gravity = toggleGravity st.gravity ∧
    (shiftGravity st).board.grid = st.board.grid.reverse ∧
    (shiftGravity st).board.blockTypes = st.board.blockTypes.reverse ∧
    (∀ i j, i < ROWS →
      cellAt (shiftGravity st).board.grid i j =
        cellAt st.board.grid (ROWS - 1 - i) j) ∧
    (∃ q, (shiftGravity st).piece = some q ∧
      (collision st.board.grid.reverse p.x
          ((ROWS : Int) - p.y - p.shape.length) p.shape = false →
        q = { p with y := (ROWS : Int) - p.y - p.shape.length } ∧
        floorDist (toggleGravity st.gravity) q.y p.shape.length =
          floorDist st.gravity p.y p.shape.length) ∧
      (collision st.board.grid.reverse p.x
          ((ROWS : Int) - p.y - p.shape.length) p.shape = true →
        q = { p with
          y := spawnY (toggleGravity st.gravity) p.shape.length })) := by
  obtain ⟨brd, pc, grav, over⟩ := st
  dsimp only at hp hlen ⊢
  subst hp
  have hcells : ∀ i j, i < ROWS →
      cellAt brd.grid.reverse i j = cellAt brd.grid (ROWS - 1 - i) j := by
    intro i j hi
    have hrow : brd.grid.reverse.getD i [] = brd.grid.getD (ROWS - 1 - i) [] := by
      rw [List.getD_eq_getElem?_getD, List.getD_eq_getElem?_getD,
        List.getElem?_reverse (show i < brd.grid.length by omega), hlen]
    unfold cellAt
    rw [hrow]
  cases grav with
  | DOWN =>
    unfold shiftGravity
    dsimp only [Option.map_some, toggleGravity, flipBoard]
    refine ⟨rfl, rfl, rfl, hcells, ?_⟩
    refine ⟨_, rfl, ?_, ?_⟩
    · intro hnc
      rw [if_neg (by simp [hnc])]
      exact ⟨rfl, rfl⟩
    · intro hc
      rw [if_pos hc]
      exact rfl
  | UP =>
    unfold shiftGravity
    dsimp only [Option.map_some, toggleGravity, flipBoard]
    refine ⟨rfl, rfl, rfl, hcells, ?_⟩
    refine ⟨_, rfl, ?_, ?_⟩
    · intro hnc
      rw [if_neg (by simp [hnc])]
      refine ⟨rfl, ?_⟩
      dsimp only [floorDist]
      omega
    · intro hc
      rw [if_pos hc]
      exact rfl

/-- Witness for claim C9: a piece over the reset board under DOWN gravity. -/
theorem C9_shiftGravity_witness :
    (⟨resetBoard, some ⟨[[1]], 7, 4, 0, false⟩, Gravity.DOWN, false⟩ :
        GameState).piece = some ⟨[[1]], 7, 4, 0, false⟩ ∧
    (⟨resetBoard, some ⟨[[1]], 7, 4, 0, false⟩, Gravity.DOWN, false⟩ :
        GameState).board.grid.length = ROWS ∧
    (shiftGravity ⟨resetBoard, some ⟨[[1]], 7, 4, 0, false⟩, Gravity.DOWN,
        false⟩).gravity = toggleGravity Gravity.DOWN :=
  ⟨rfl, by decide,
   (C9_shiftGravity ⟨resetBoard, some ⟨[[1]], 7, 4, 0, false⟩, Gravity.DOWN,
      false⟩ ⟨[[1]], 7, 4, 0, false⟩ rfl (by decide)).1⟩

/-!  ### Lemmas about columns, zeroing and dropping  -/

theorem foldl_id {α β : Type} {f : α → β → α} :
    ∀ (l : List β) (a : α), (∀ x ∈ l, f a x = a) → l.foldl f a = a
  | [], _, _ => rfl
  | x :: l, a, h => by
      rw [List.foldl_cons, h x (List.mem_cons_self x l)]
      exact foldl_id l a fun y hy => h y (List.mem_cons_of_mem x hy)

theorem mem_scanRows_lt (g : Grid) (r : Nat) (h : r ∈ scanRows g) : r < ROWS := by
  unfold scanRows at h
  have := List.mem_of_mem_filter h
  rw [List.mem_reverse, List.mem_range] at this
  exact this

theorem mem_scanCols_lt (g : Grid) (c : Nat) (h : c ∈ scanCols g) : c < COLS := by
  unfold scanCols at h
  have := List.mem_of_mem_filter h
  rwa [List.mem_range] at this

theorem mem_boxRows_lt (br r : Nat) (h : r ∈ boxRows br) : r < ROWS := by
  unfold boxRows at h
  have := List.mem_of_mem_filter h
  rwa [List.mem_range] at this

theorem mem_boxCols_lt (bc c : Nat) (h : c ∈ boxCols bc) : c < COLS := by
  unfold boxCols at h
  have := List.mem_of_mem_filter h
  rwa [List.mem_range] at this

theorem length_removeRow (grav : Gravity) (g : Grid) (r : Nat)
    (h : r < g.length) : (removeRow grav g r).length = g.length := by
  cases grav <;> simp [removeRow, List.length_eraseIdx, h] <;> omega

theorem grid_length_clearRows (grav : Gravity) (brd : Board) (rows : List Nat)
    (hlen : brd.grid.length = ROWS) (hrows : ∀ r ∈ rows, r < ROWS) :
    (clearRows grav brd rows).grid.length = ROWS := by
  unfold clearRows
  exact foldl_preserve (fun b : Board => b.grid.length = ROWS)
    (fun r => r < ROWS) _ rows brd
    (fun b r hb hr => by
      show (removeRow grav b.grid r).length = ROWS
      rw [length_removeRow grav b.grid r (by omega), hb])
    hrows hlen

theorem grid_length_zeroColumn (brd : Board) (c : Nat) :
    (zeroColumn brd c).grid.length = brd.grid.length := by
  unfold zeroColumn
  exact foldl_preserve (fun b : Board => b.grid.length = brd.grid.length)
    (fun _ => True) _ (List.range ROWS) brd
    (fun b r hb _ => by
      show (setCell b.grid r c 0).length = brd.grid.length
      rw [length_setCell, hb])
    (fun _ _ => trivial) rfl

theorem grid_length_dropColumn (brd : Board) (c : Nat) :
    (dropColumn brd c).grid.length = brd.grid.length := by
  unfold dropColumn
  refine foldl_preserve (fun b : Board => b.grid.length = brd.grid.length)
    (fun _ => True) _ _ brd ?_ (fun _ _ => trivial) rfl
  intro b row hb _
  unfold dropColumnStep
  split
  · split
    · dsimp only
      rw [length_setCell, length_setCell, hb]
    · exact hb
  · exact hb

theorem grid_length_clearCols (brd : Board) (cols : List Nat) :
    (clearCols brd cols).grid.length = brd.grid.length := by
  unfold clearCols
  refine foldl_preserve (fun b : Board => b.grid.length = brd.grid.length)
    (fun _ => True) _ cols brd ?_ (fun _ _ => trivial) rfl
  intro b c2 hb _
  show (dropColumn (zeroColumn b c2) c2).grid.length = brd.grid.length
  rw [grid_length_dropColumn, grid_length_zeroColumn, hb]

theorem grid_length_bombBoxClear (s : ScoredBoard) (br bc : Nat) :
    (bombBoxClear s br bc).board.grid.length = s.board.grid.length := by
  unfold bombBoxClear
  refine foldl_preserve
    (fun a : ScoredBoard => a.board.grid.length = s.board.grid.length)
    (fun _ => True) _ _ s ?_ (fun _ _ => trivial) rfl
  intro a r ha _
  refine foldl_preserve
    (fun a2 : ScoredBoard => a2.board.grid.length = s.board.grid.length)
    (fun _ => True) _ _ a ?_ (fun _ _ => trivial) ha
  intro a2 c2 ha2 _
  unfold bombClearCell
  split
  · dsimp only
    rw [length_setCell]
    exact ha2
  · exact ha2

theorem grid_length_explodeBomb (s : ScoredBoard) (br bc : Nat) :
    (explodeBomb s br bc).board.grid.length = s.board.grid.length := by
  unfold explodeBomb
  dsimp only
  refine foldl_preserve
    (fun b : Board => b.grid.length = s.board.grid.length)
    (fun _ => True) _ _ _ ?_ (fun _ _ => trivial)
    (grid_length_bombBoxClear s br bc)
  intro b c2 hb _
  rw [grid_length_dropColumn]
  exact hb

theorem grid_length_explodeBombs (s : ScoredBoard) (bombs : List (Nat × Nat)) :
    (explodeBombs s bombs).board.grid.length = s.board.grid.length := by
  unfold explodeBombs
  refine foldl_preserve
    (fun a : ScoredBoard => a.board.grid.length = s.board.grid.length)
    (fun _ => True) _ bombs s ?_ (fun _ _ => trivial) rfl
  intro a p ha _
  show (explodeBomb a p.1 p.2).board.grid.length = s.board.grid.length
  rw [grid_length_explodeBomb]
  exact ha

theorem zeroColumn_cellAt_col (brd : Board) (c : Nat)
    (hlen : brd.grid.length ≤ ROWS) :
    ∀ r, cellAt (zeroColumn brd c).grid r c = 0 := by
  intro r
  by_cases hr : r < ROWS
  · unfold zeroColumn
    have key : ∀ (l : List Nat) (b : Board), r ∈ l →
        cellAt ((l.foldl (fun b r => (⟨setCell b.grid r c 0,
          setCell b.blockTypes r c 0⟩ : Board)) b)).grid r c = 0 := by
      intro l
      induction l with
      | nil => intro b h; exact absurd h (List.not_mem_nil r)
      | cons x t ih =>
        intro b h
        rw [List.foldl_cons]
        by_cases hx : r ∈ t
        · exact ih _ hx
        · have hrx : r = x := by
            rcases List.mem_cons.mp h with h1 | h1
            · exact h1
            · exact absurd h1 hx
          subst hrx
          refine foldl_preserve (fun b2 : Board => cellAt b2.grid r c = 0)
            (fun _ => True) _ t _ ?_ (fun _ _ => trivial) ?_
          · intro b2 y hb2 _
            show cellAt (setCell b2.grid y c 0) r c = 0
            rcases cellAt_setCell_zero b2.grid y c r c with h0 | h0
            · exact h0
            · rw [h0, hb2]
          · show cellAt (setCell b.grid r c 0) r c = 0
            exact cellAt_setCell_write_zero b.grid r c
    exact key (List.range ROWS) brd (List.mem_range.mpr hr)
  · have hge : (zeroColumn brd c).grid.length ≤ r := by
      rw [grid_length_zeroColumn]
      omega
    exact cellAt_of_len_le _ r c hge

theorem zeroColumn_preserves_zero (brd : Board) (c2 c r : Nat)
    (h : cellAt brd.grid r c = 0) :
    cellAt (zeroColumn brd c2).grid r c = 0 := by
  unfold zeroColumn
  refine foldl_preserve (fun b : Board => cellAt b.grid r c = 0)
    (fun _ => True) _ _ brd ?_ (fun _ _ => trivial) h
  intro b x hb _
  show cellAt (setCell b.grid x c2 0) r c = 0
  rcases cellAt_setCell_zero b.grid x c2 r c with h0 | h0
  · exact h0
  · rw [h0, hb]

theorem dropColumn_of_empty (brd : Board) (c : Nat)
    (h : ∀ r, cellAt brd.grid r c = 0) : dropColumn brd c = brd := by
  unfold dropColumn
  apply foldl_id
  intro row _
  unfold dropColumnStep
  rw [if_pos (by rw [h row]; rfl)]
  have hfind : findAbove brd.grid c row = none := by
    unfold findAbove
    rw [List.find?_eq_none]
    intro r _
    rw [h r]
    simp
  rw [hfind]

theorem cellAt_dropColumnStep_other (brd : Board) (c row r c2 : Nat)
    (hne : c2 ≠ c) :
    cellAt (dropColumnStep brd c row).grid r c2 = cellAt brd.grid r c2 := by
  unfold dropColumnStep
  split
  · split
    · rename_i r0 _
      show cellAt (setCell (setCell brd.grid row c _) r0 c 0) r c2 = _
      rw [cellAt_setCell_ne _ _ _ _ _ _ (by tauto),
        cellAt_setCell_ne _ _ _ _ _ _ (by tauto)]
    · rfl
  · rfl

theorem cellAt_dropColumn_other (brd : Board) (c r c2 : Nat) (hne : c2 ≠ c) :
    cellAt (dropColumn brd c).grid r c2 = cellAt brd.grid r c2 := by
  unfold dropColumn
  refine foldl_preserve
    (fun b : Board => cellAt b.grid r c2 = cellAt brd.grid r c2)
    (fun _ => True) _ _ brd ?_ (fun _ _ => trivial) rfl
  intro b row hb _
  rw [cellAt_dropColumnStep_other b c row r c2 hne]
  exact hb

theorem dropColumn_preserves_emptyCol (brd : Board) (c2 c : Nat)
    (h : ∀ r, cellAt brd.grid r c = 0) :
    ∀ r, cellAt (dropColumn brd c2).grid r c = 0 := by
  intro r
  by_cases hcc : c2 = c
  · subst hcc
    rw [dropColumn_of_empty brd c2 h]
    exact h r
  · rw [cellAt_dropColumn_other brd c2 r c (fun hq => hcc hq.symm)]
    exact h r

theorem clearCols_preserves_emptyCol (brd : Board) (cols : List Nat) (c : Nat)
    (h : ∀ r, cellAt brd.grid r c = 0) :
    ∀ r, cellAt (clearCols brd cols).grid r c = 0 := by
  unfold clearCols
  refine foldl_preserve (fun b : Board => ∀ r, cellAt b.grid r c = 0)
    (fun _ => True) _ cols brd ?_ (fun _ _ => trivial) h
  intro b x hb _ r
  exact dropColumn_preserves_emptyCol (zeroColumn b x) x c
    (fun r2 => zeroColumn_preserves_zero b x c r2 (hb r2)) r

theorem clearCols_mem_empty (cols : List Nat) (brd : Board) (c : Nat)
    (hlen : brd.grid.length = ROWS) (hc : c ∈ cols) :
    ∀ r, cellAt (clearCols brd cols).grid r c = 0 := by
  induction cols generalizing brd with
  | nil => exact absurd hc (List.not_mem_nil c)
  | cons x t ih =>
    have hstep : clearCols brd (x :: t) =
        clearCols (dropColumn (zeroColumn brd x) x) t := by
      unfold clearCols
      rw [List.foldl_cons]
    rw [hstep]
    by_cases hcx : c = x
    · subst hcx
      have hempty : ∀ r, cellAt (dropColumn (zeroColumn brd c) c).grid r c = 0 := by
        have hz := zeroColumn_cellAt_col brd c (by omega)
        rw [dropColumn_of_empty _ c hz]
        exact hz
      exact clearCols_preserves_emptyCol _ t c hempty
    · have hct : c ∈ t := by
        rcases List.mem_cons.mp hc with h1 | h1
        · exact absurd h1 hcx
        · exact h1
      refine ih _ ?_ hct
      rw [grid_length_dropColumn, grid_length_zeroColumn, hlen]

theorem explodeBombs_preserves_emptyCol (s : ScoredBoard)
    (bombs : List (Nat × Nat)) (c : Nat)
    (h : ∀ r, cellAt s.board.grid r c = 0) :
    ∀ r, cellAt (explodeBombs s bombs).board.grid r c = 0 := by
  unfold explodeBombs
  refine foldl_preserve
    (fun a : ScoredBoard => ∀ r, cellAt a.board.grid r c = 0)
    (fun _ => True) _ bombs s ?_ (fun _ _ => trivial) h
  intro a p ha _
  unfold explodeBomb
  dsimp only
  have hbox : ∀ r, cellAt (bombBoxClear a p.1 p.2).board.grid r c = 0 := by
    unfold bombBoxClear
    refine foldl_preserve
      (fun a2 : ScoredBoard => ∀ r, cellAt a2.board.grid r c = 0)
      (fun _ => True) _ _ a ?_ (fun _ _ => trivial) ha
    intro a2 rr ha2 _
    refine foldl_preserve
      (fun a3 : ScoredBoard => ∀ r, cellAt a3.board.grid r c = 0)
      (fun _ => True) _ _ a2 ?_ (fun _ _ => trivial) ha2
    intro a3 cc ha3 _ r
    unfold bombClearCell
    split
    · show cellAt (setCell a3.board.grid rr cc 0) r c = 0
      rcases cellAt_setCell_zero a3.board.grid rr cc r c with h0 | h0
      · exact h0
      · rw [h0]
        exact ha3 r
    · exact ha3 r
  exact foldl_preserve (fun b : Board => ∀ r, cellAt b.grid r c = 0)
    (fun _ => True) _ (boxCols p.2) (bombBoxClear a p.1 p.2).board
    (fun b cc hb _ => dropColumn_preserves_emptyCol b cc c hb)
    (fun _ _ => trivial) hbox

theorem compacted_of_empty (grav : Gravity) (g : Grid) (c : Nat)
    (h : ∀ r, cellAt g r c = 0) : compactedToward grav g c := by
  cases grav
  · intro r r' _ _ hocc
    exact absurd (h r) hocc
  · intro r r' _ _ hocc
    exact absurd (h r') hocc

/-!  ### Claim C1: column clears  -/

/-- Claim C1: after a clear cycle resolves, every column the scan found full
is entirely empty, the grid still has exactly `ROWS` rows, and the cleared
column is (trivially, being empty) compacted toward the floor of the current
gravity direction. -/
theorem C1_column_clear (grav : Gravity) (st : ClearState) (c : Nat)
    (hlen : st.board.grid.length = ROWS)
    (hc : c ∈ scanCols st.board.grid) :
    (∀ r, cellAt (clearResolve grav st).board.grid r c = 0) ∧
    (clearResolve grav st).board.grid.length = ROWS ∧
    compactedToward grav (clearResolve grav st).board.grid c := by
  have hcond : ((scanRows st.board.grid).isEmpty &&
      (scanCols st.board.grid).isEmpty) = false := by
    have hne : (scanCols st.board.grid).isEmpty = false := by
      cases hq : (scanCols st.board.grid).isEmpty
      · rfl
      · rw [List.isEmpty_iff] at hq
        rw [hq] at hc
        exact absurd hc (List.not_mem_nil c)
    rw [hne, Bool.and_false]
  unfold clearResolve
  dsimp only
  rw [hcond]
  simp only [Bool.false_eq_true, if_false]
  have hlenRows : (clearRows grav st.board
      (scanRows st.board.grid).reverse).grid.length = ROWS := by
    refine grid_length_clearRows grav st.board _ hlen ?_
    intro r hr
    rw [List.mem_reverse] at hr
    exact mem_scanRows_lt _ r hr
  have hafterCols : ∀ r, cellAt (clearCols
      (clearRows grav st.board (scanRows st.board.grid).reverse)
      (scanCols st.board.grid)).grid r c = 0 :=
    clearCols_mem_empty _ _ c hlenRows hc
  have hfinal : ∀ r, cellAt (explodeBombs
      ⟨clearCols (clearRows grav st.board (scanRows st.board.grid).reverse)
        (scanCols st.board.grid), st.counters.score⟩
      (collectBombs st.board.blockTypes (scanRows st.board.grid)
        (scanCols st.board.grid))).board.grid r c = 0 :=
    explodeBombs_preserves_emptyCol _ _ c hafterCols
  refine ⟨hfinal, ?_, compacted_of_empty grav _ c hfinal⟩
  rw [grid_length_explodeBombs]
  show (clearCols _ _).grid.length = ROWS
  rw [grid_length_clearCols]
  exact hlenRows

/-- Witness for claim C1: the board whose column 0 is full. -/
theorem C1_column_clear_witness :
    c1State.board.grid.length = ROWS ∧
    0 ∈ scanCols c1State.board.grid ∧
    ((∀ r, cellAt (clearResolve Gravity.DOWN c1State).board.grid r 0 = 0) ∧
     (clearResolve Gravity.DOWN c1State).board.grid.length = ROWS ∧
     compactedToward Gravity.DOWN (clearResolve Gravity.DOWN c1State).board.grid 0) :=
  ⟨by decide, by decide,
   C1_column_clear Gravity.DOWN c1State 0 (by decide) (by decide)⟩

/-!  ### Claim C3: bomb explosions  -/

/-- Counterexample to claim C3: on the fixture `c3State` (column 0 full with
a bomb at `(5,0)`, row 10 full, a marker cell at `(6,1)`), the row removal
shifts the marker to `(7,1)`, and a detonation at the bomb's shift-adjusted
position `(6,0)` would clear it for a 10-point bonus; the source detonates at
the recorded scan-time position `(5,0)` instead, misses the marker, and the
marker survives (compacted to the bottom row).  The code's resolution differs
from the claim's shift-adjusted resolution at this input. -/
theorem C3_counterexample :
    (clearResolve Gravity.DOWN c3State).counters.score = 300 ∧
    (clearResolveShiftAdjusted Gravity.DOWN c3State).counters.score = 310 ∧
    cellAt (clearResolve Gravity.DOWN c3State).board.grid 17 1 = 1 ∧
    cellAt (clearResolveShiftAdjusted Gravity.DOWN c3State).board.grid 17 1 = 0 ∧
    clearResolve Gravity.DOWN c3State ≠
      clearResolveShiftAdjusted Gravity.DOWN c3State := by
  refine ⟨?_, ?_, ?_, ?_, ?_⟩ <;> decide

theorem scanRows_nodup (g : Grid) : (scanRows g).Nodup :=
  (List.nodup_reverse.mpr (List.nodup_range ROWS)).filter _

theorem boxRows_nodup (br : Nat) : (boxRows br).Nodup :=
  (List.nodup_range ROWS).filter _

theorem boxCols_nodup (bc : Nat) : (boxCols bc).Nodup :=
  (List.nodup_range COLS).filter _

theorem collectBombs_fromRows_aux (b : Grid) :
    ∀ (rowsL : List Nat) (acc : List (Nat × Nat)), acc.Nodup → rowsL.Nodup →
      (∀ q ∈ acc, q.1 ∉ rowsL) →
      ((rowsL.foldl (fun acc r => acc ++ ((List.range COLS).filter
          (fun c => cellAt b r c == 1)).map (fun c => (r, c))) acc).Nodup ∧
       ∀ q ∈ rowsL.foldl (fun acc r => acc ++ ((List.range COLS).filter
          (fun c => cellAt b r c == 1)).map (fun c => (r, c))) acc,
         q.1 ∈ rowsL ∨ q ∈ acc)
  | [], acc, hacc, _, _ => ⟨hacc, fun q hq => Or.inr hq⟩
  | r1 :: t, acc, hacc, hnd, hdisj => by
      rw [List.foldl_cons]
      have hbatch : (((List.range COLS).filter
          (fun c => cellAt b r1 c == 1)).map (fun c => (r1, c))).Nodup := by
        refine List.Nodup.map ?_ ((List.nodup_range COLS).filter _)
        intro a1 a2 h
        exact (Prod.mk.injEq _ _ _ _).mp h |>.2
      have hacc2 : (acc ++ ((List.range COLS).filter
          (fun c => cellAt b r1 c == 1)).map (fun c => (r1, c))).Nodup := by
        rw [List.nodup_append]
        refine ⟨hacc, hbatch, ?_⟩
        intro q hq hq2
        obtain ⟨c2, -, hc2⟩ := List.mem_map.mp hq2
        have : q.1 ∈ r1 :: t := by
          rw [← hc2]
          exact List.mem_cons_self r1 t
        exact hdisj q hq this
      have hnd2 : t.Nodup := (List.nodup_cons.mp hnd).2
      have hr1 : r1 ∉ t := (List.nodup_cons.mp hnd).1
      have hdisj2 : ∀ q ∈ acc ++ ((List.range COLS).filter
          (fun c => cellAt b r1 c == 1)).map (fun c => (r1, c)), q.1 ∉ t := by
        intro q hq
        rcases List.mem_append.mp hq with h1 | h1
        · intro hqt
          exact hdisj q h1 (List.mem_cons_of_mem r1 hqt)
        · obtain ⟨c2, -, hc2⟩ := List.mem_map.mp h1
          rw [← hc2]
          exact hr1
      obtain ⟨hn, hm⟩ := collectBombs_fromRows_aux b t _ hacc2 hnd2 hdisj2
      refine ⟨hn, ?_⟩
      intro q hq
      rcases hm q hq with h1 | h1
      · exact Or.inl (List.mem_cons_of_mem r1 h1)
      · rcases List.mem_append.mp h1 with h2 | h2
        · exact Or.inr h2
        · obtain ⟨c2, -, hc2⟩ := List.mem_map.mp h2
          left
          rw [← hc2]
          exact List.mem_cons_self r1 t

theorem collectBombs_cols_aux (b : Grid) :
    ∀ (colsL : List Nat) (acc : List (Nat × Nat)), acc.Nodup →
      (colsL.foldl (fun acc c => acc ++ ((List.range ROWS).filter
        (fun r => cellAt b r c == 1 && !acc.contains (r, c))).map
        (fun r => (r, c))) acc).Nodup
  | [], _, hacc => hacc
  | c1 :: t, acc, hacc => by
      rw [List.foldl_cons]
      refine collectBombs_cols_aux b t _ ?_
      rw [List.nodup_append]
      refine ⟨hacc, ?_, ?_⟩
      · refine List.Nodup.map ?_ ((List.nodup_range ROWS).filter _)
        intro a1 a2 h
        exact (Prod.mk.injEq _ _ _ _).mp h |>.1
      · intro q hq hq2
        obtain ⟨r2, hr2, hrq⟩ := List.mem_map.mp hq2
        have := List.of_mem_filter hr2
        rw [Bool.and_eq_true, Bool.not_eq_eq_eq_not, Bool.not_true] at this
        have hnc := this.2
        rw [← hrq] at hq
        have : acc.contains (r2, c1) = true := List.elem_eq_true_of_mem hq
        rw [this] at hnc
        exact absurd hnc (by simp)

/-- Every queued bomb coordinate appears exactly once in the bomb list the
clear callback collects. -/
theorem collectBombs_nodup (b : Grid) (rows cols : List Nat)
    (hrows : rows.Nodup) : (collectBombs b rows cols).Nodup := by
  unfold collectBombs
  refine collectBombs_cols_aux b cols _ ?_
  exact (collectBombs_fromRows_aux b rows [] List.nodup_nil hrows
    (fun q hq => absurd hq (List.not_mem_nil q))).1

theorem bombClearCell_preserves_zero (a : ScoredBoard) (rr cc r c : Nat)
    (h : cellAt a.board.grid r c = 0) :
    cellAt (bombClearCell a rr cc).board.grid r c = 0 := by
  unfold bombClearCell
  split
  · show cellAt (setCell a.board.grid rr cc 0) r c = 0
    rcases cellAt_setCell_zero a.board.grid rr cc r c with h0 | h0
    · exact h0
    · rw [h0]
      exact h
  · exact h

theorem bombClearCell_cellAt_ne (a : ScoredBoard) (rr cc r c : Nat)
    (h : ¬(rr = r ∧ cc = c)) :
    cellAt (bombClearCell a rr cc).board.grid r c = cellAt a.board.grid r c := by
  unfold bombClearCell
  split
  · show cellAt (setCell a.board.grid rr cc 0) r c = _
    rw [cellAt_setCell_ne _ _ _ _ _ _ h]
  · rfl

theorem bombInnerFold_zero (rr : Nat) (c : Nat) :
    ∀ (colsL : List Nat) (a : ScoredBoard), c ∈ colsL →
      cellAt ((colsL.foldl (fun a c => bombClearCell a rr c) a)).board.grid rr c = 0
  | [], _, hc => absurd hc (List.not_mem_nil c)
  | c1 :: t, a, hc => by
      rw [List.foldl_cons]
      by_cases hct : c ∈ t
      · exact bombInnerFold_zero rr c t _ hct
      · have hcc : c = c1 := by
          rcases List.mem_cons.mp hc with h1 | h1
          · exact h1
          · exact absurd h1 hct
        subst hcc
        have hz : cellAt (bombClearCell a rr c).board.grid rr c = 0 := by
          unfold bombClearCell
          split
          · exact cellAt_setCell_write_zero a.board.grid rr c
          · rename_i hocc
            rw [bne_iff_ne] at hocc
            push_neg at hocc
            exact hocc
        exact foldl_preserve
          (fun a2 : ScoredBoard => cellAt a2.board.grid rr c = 0)
          (fun _ => True) _ t _
          (fun a2 y ha2 _ => bombClearCell_preserves_zero a2 rr y rr c ha2)
          (fun _ _ => trivial) hz

theorem bombBoxClear_box_zero (s : ScoredBoard) (br bc : Nat) (r c : Nat)
    (hr : r ∈ boxRows br) (hc : c ∈ boxCols bc) :
    cellAt (bombBoxClear s br bc).board.grid r c = 0 := by
  unfold bombBoxClear
  have key : ∀ (rowsL : List Nat) (a : ScoredBoard), r ∈ rowsL →
      cellAt ((rowsL.foldl (fun acc rr => (boxCols bc).foldl
        (fun a2 c2 => bombClearCell a2 rr c2) acc) a)).board.grid r c = 0 := by
    intro rowsL
    induction rowsL with
    | nil => intro a h; exact absurd h (List.not_mem_nil r)
    | cons r1 t ih =>
      intro a h
      rw [List.foldl_cons]
      by_cases hrt : r ∈ t
      · exact ih _ hrt
      · have hrr : r = r1 := by
          rcases List.mem_cons.mp h with h1 | h1
          · exact h1
          · exact absurd h1 hrt
        subst hrr
        have hz := bombInnerFold_zero r c (boxCols bc) a hc
        exact foldl_preserve
          (fun a2 : ScoredBoard => cellAt a2.board.grid r c = 0)
          (fun _ => True) _ t _
          (fun a2 rr ha2 _ => foldl_preserve
            (fun a3 : ScoredBoard => cellAt a3.board.grid r c = 0)
            (fun _ => True) _ (boxCols bc) a2
            (fun a3 cc ha3 _ => bombClearCell_preserves_zero a3 rr cc r c ha3)
            (fun _ _ => trivial) ha2)
          (fun _ _ => trivial) hz
  exact key (boxRows br) s hr

theorem bombBoxClear_outside (s : ScoredBoard) (br bc : Nat) (r c : Nat)
    (h : r ∉ boxRows br ∨ c ∉ boxCols bc) :
    cellAt (bombBoxClear s br bc).board.grid r c = cellAt s.board.grid r c := by
  unfold bombBoxClear
  refine foldl_preserve
    (fun a : ScoredBoard => cellAt a.board.grid r c = cellAt s.board.grid r c)
    (fun rr => rr ∈ boxRows br) _ _ s ?_ (fun x hx => hx) rfl
  intro a rr ha hrr
  refine foldl_preserve
    (fun a2 : ScoredBoard => cellAt a2.board.grid r c = cellAt s.board.grid r c)
    (fun cc => cc ∈ boxCols bc) _ _ a ?_ (fun x hx => hx) ha
  intro a2 cc ha2 hcc
  rw [bombClearCell_cellAt_ne a2 rr cc r c ?_]
  · exact ha2
  · rintro ⟨h1, h2⟩
    subst h1
    subst h2
    rcases h with h3 | h3
    · exact h3 hrr
    · exact h3 hcc

theorem bombInnerFold_score (rr : Nat) :
    ∀ (colsL : List Nat) (a : ScoredBoard), colsL.Nodup →
      ((colsL.foldl (fun a c => bombClearCell a rr c) a)).score =
        a.score + 10 * (colsL.filter
          (fun c => cellAt a.board.grid rr c != 0)).length ∧
      (∀ r2 c2, ¬(r2 = rr ∧ c2 ∈ colsL) →
        cellAt ((colsL.foldl (fun a c => bombClearCell a rr c) a)).board.grid r2 c2 =
          cellAt a.board.grid r2 c2)
  | [], a, _ => ⟨by simp, fun r2 c2 _ => rfl⟩
  | c1 :: t, a, hnd => by
      obtain ⟨hc1, hndt⟩ := List.nodup_cons.mp hnd
      rw [List.foldl_cons]
      obtain ⟨ihs, ihc⟩ := bombInnerFold_score rr t (bombClearCell a rr c1) hndt
      have hcellseq : ∀ c2 ∈ t, cellAt (bombClearCell a rr c1).board.grid rr c2 =
          cellAt a.board.grid rr c2 := by
        intro c2 hc2
        refine bombClearCell_cellAt_ne a rr c1 rr c2 ?_
        rintro ⟨-, h2⟩
        subst h2
        exact hc1 hc2
      have hfiltereq : (t.filter
          (fun c => cellAt (bombClearCell a rr c1).board.grid rr c != 0)) =
          (t.filter (fun c => cellAt a.board.grid rr c != 0)) := by
        apply List.filter_congr
        intro c2 hc2
        rw [hcellseq c2 hc2]
      have hscorestep : (bombClearCell a rr c1).score =
          a.score + (if cellAt a.board.grid rr c1 != 0 then 10 else 0) := by
        unfold bombClearCell
        split
        · rfl
        · omega
      constructor
      · rw [ihs, hfiltereq, hscorestep, List.filter_cons]
        split
        · rename_i hocc
          simp only [List.length_cons]
          ring
        · ring
      · intro r2 c2 hno
        rw [ihc r2 c2 ?_, bombClearCell_cellAt_ne a rr c1 r2 c2 ?_]
        · rintro ⟨h1, h2⟩
          subst h2
          exact hno ⟨h1.symm, List.mem_cons_self c1 t⟩
        · rintro ⟨h1, h2⟩
          exact hno ⟨h1, List.mem_cons_of_mem c1 h2⟩

theorem bombOuterFold_score (bc : Nat) :
    ∀ (rowsL : List Nat) (a : ScoredBoard), rowsL.Nodup →
      ((rowsL.foldl (fun acc rr => (boxCols bc).foldl
          (fun a2 c2 => bombClearCell a2 rr c2) acc) a)).score =
        a.score + 10 * (rowsL.map (fun r => ((boxCols bc).filter
          (fun c => cellAt a.board.grid r c != 0)).length)).sum ∧
      (∀ r2 c2, r2 ∉ rowsL →
        cellAt ((rowsL.foldl (fun acc rr => (boxCols bc).foldl
          (fun a2 c2 => bombClearCell a2 rr c2) acc) a)).board.grid r2 c2 =
          cellAt a.board.grid r2 c2)
  | [], a, _ => ⟨by simp, fun _ _ _ => rfl⟩
  | r1 :: t, a, hnd => by
      obtain ⟨hr1, hndt⟩ := List.nodup_cons.mp hnd
      rw [List.foldl_cons]
      obtain ⟨ins, inc⟩ :=
        bombInnerFold_score r1 (boxCols bc) a (boxCols_nodup bc)
      obtain ⟨ihs, ihc⟩ := bombOuterFold_score bc t
        ((boxCols bc).foldl (fun a2 c2 => bombClearCell a2 r1 c2) a) hndt
      have hcnt : ∀ r ∈ t, ((boxCols bc).filter (fun c =>
          cellAt ((boxCols bc).foldl (fun a2 c2 => bombClearCell a2 r1 c2)
            a).board.grid r c != 0)).length =
          ((boxCols bc).filter
            (fun c => cellAt a.board.grid r c != 0)).length := by
        intro r hrt
        congr 1
        apply List.filter_congr
        intro c2 _
        rw [inc r c2 (by rintro ⟨h1, -⟩; subst h1; exact hr1 hrt)]
      constructor
      · rw [ihs, ins, List.map_cons, List.sum_cons]
        have hmap : t.map (fun r => ((boxCols bc).filter (fun c =>
            cellAt ((boxCols bc).foldl (fun a2 c2 => bombClearCell a2 r1 c2)
              a).board.grid r c != 0)).length) =
            t.map (fun r => ((boxCols bc).filter
              (fun c => cellAt a.board.grid r c != 0)).length) :=
          List.map_congr_left hcnt
        rw [hmap]
        ring
      · intro r2 c2 hno
        rw [ihc r2 c2 (fun hq => hno (List.mem_cons_of_mem r1 hq)),
          inc r2 c2 (by
            rintro ⟨h1, -⟩
            subst h1
            exact hno (List.mem_cons_self r2 t))]

/-- The bomb bonus is 10 points per occupied cell of the clipped box. -/
theorem bombBoxClear_score (s : ScoredBoard) (br bc : Nat) :
    (bombBoxClear s br bc).score =
      s.score + 10 * boxOccCount s.board.grid br bc :=
  (bombOuterFold_score bc (boxRows br) s (boxRows_nodup br)).1

theorem rows_len_setCell (g : Grid) (r c v : Nat)
    (hrows : ∀ row ∈ g, row.length = COLS) :
    ∀ row ∈ setCell g r c v, row.length = COLS := by
  intro row h
  by_cases hr : r < g.length
  · rcases List.mem_or_eq_of_mem_set h with h1 | h1
    · exact hrows row h1
    · rw [h1, List.length_set]
      refine hrows _ ?_
      rw [List.getD_eq_getElem _ _ hr]
      exact List.getElem_mem hr
  · unfold setCell at h
    rw [List.set_eq_of_length_le (by omega)] at h
    exact hrows row h

theorem len_dropColumnStep (brd : Board) (c row : Nat) :
    (dropColumnStep brd c row).grid.length = brd.grid.length := by
  unfold dropColumnStep
  split
  · split
    · dsimp only
      rw [length_setCell, length_setCell]
    · rfl
  · rfl

theorem rows_len_dropColumnStep (brd : Board) (c row : Nat)
    (hrows : ∀ r2 ∈ brd.grid, r2.length = COLS) :
    ∀ r2 ∈ (dropColumnStep brd c row).grid, r2.length = COLS := by
  unfold dropColumnStep
  split
  · split
    · dsimp only
      exact rows_len_setCell _ _ _ _ (rows_len_setCell _ _ _ _ hrows)
    · exact hrows
  · exact hrows

theorem rows_len_dropColumn (brd : Board) (c : Nat)
    (hrows : ∀ r2 ∈ brd.grid, r2.length = COLS) :
    ∀ r2 ∈ (dropColumn brd c).grid, r2.length = COLS := by
  unfold dropColumn
  exact foldl_preserve (fun b : Board => ∀ r2 ∈ b.grid, r2.length = COLS)
    (fun _ => True) _ _ brd
    (fun b row hb _ => rows_len_dropColumnStep b c row hb)
    (fun _ _ => trivial) hrows

theorem rows_len_bombBoxClear (s : ScoredBoard) (br bc : Nat)
    (hrows : ∀ r2 ∈ s.board.grid, r2.length = COLS) :
    ∀ r2 ∈ (bombBoxClear s br bc).board.grid, r2.length = COLS := by
  unfold bombBoxClear
  refine foldl_preserve
    (fun a : ScoredBoard => ∀ r2 ∈ a.board.grid, r2.length = COLS)
    (fun _ => True) _ _ s ?_ (fun _ _ => trivial) hrows
  intro a rr ha _
  refine foldl_preserve
    (fun a2 : ScoredBoard => ∀ r2 ∈ a2.board.grid, r2.length = COLS)
    (fun _ => True) _ _ a ?_ (fun _ _ => trivial) ha
  intro a2 cc ha2 _
  unfold bombClearCell
  split
  · exact rows_len_setCell _ _ _ _ ha2
  · exact ha2

theorem dropColumnAux (c : Nat) :
    ∀ (k : Nat) (brd : Board), k ≤ ROWS → brd.grid.length = ROWS →
      (∀ row ∈ brd.grid, row.length = COLS) → c < COLS →
      (∀ r, k ≤ r → r < ROWS → cellAt brd.grid r c = 0 →
        ∀ q, q < r → cellAt brd.grid q c = 0) →
      (∀ r, r < ROWS →
        cellAt ((List.range k).reverse.foldl
          (fun b row => dropColumnStep b c row) brd).grid r c = 0 →
        ∀ q, q < r →
          cellAt ((List.range k).reverse.foldl
            (fun b row => dropColumnStep b c row) brd).grid q c = 0)
  | 0, brd, _, _, _, _, hJ => fun r hr hcell q hq =>
      hJ r (Nat.zero_le r) hr hcell q hq
  | k + 1, brd, hk, hlen, hrows, hc, hJ => by
      have hrange : (List.range (k + 1)).reverse = k :: (List.range k).reverse := by
        rw [List.range_succ, List.reverse_append]
        rfl
      rw [hrange, List.foldl_cons]
      have hlen1 : (dropColumnStep brd c k).grid.length = ROWS := by
        rw [len_dropColumnStep, hlen]
      have hrows1 : ∀ row ∈ (dropColumnStep brd c k).grid, row.length = COLS :=
        rows_len_dropColumnStep brd c k hrows
      have hJ1 : ∀ r, k ≤ r → r < ROWS →
          cellAt (dropColumnStep brd c k).grid r c = 0 →
          ∀ q, q < r → cellAt (dropColumnStep brd c k).grid q c = 0 := by
        unfold dropColumnStep
        split
        · rename_i hguard
          rw [beq_iff_eq] at hguard
          split
          · rename_i r0 hfind
            dsimp only
            have hr0k : r0 < k := by
              have := List.mem_of_find?_eq_some hfind
              rw [List.mem_reverse, List.mem_range] at this
              exact this
            have hr0occ : cellAt brd.grid r0 c ≠ 0 := by
              have := List.find?_some hfind
              rwa [bne_iff_ne] at this
            intro r hkr hrR hcell q hq
            rcases Nat.eq_or_lt_of_le hkr with heq | hlt
            · exfalso
              rw [← heq] at hcell
              have hrowlen : c < (brd.grid.getD k []).length := by
                rw [hrows (brd.grid.getD k [])
                  (by rw [List.getD_eq_getElem _ _ (by omega)]
                      exact List.getElem_mem (by omega))]
                omega
              rw [cellAt_setCell_ne _ _ _ _ _ _ (by
                    rintro ⟨h1, -⟩
                    omega),
                cellAt_setCell_self brd.grid k c _ (by omega) hrowlen] at hcell
              exact hr0occ hcell
            · exfalso
              have hcell2 : cellAt brd.grid r c = 0 := by
                rw [cellAt_setCell_ne _ _ _ _ _ _ (by
                      rintro ⟨h1, -⟩
                      omega),
                  cellAt_setCell_ne _ _ _ _ _ _ (by
                      rintro ⟨h1, -⟩
                      omega)] at hcell
                exact hcell
              have := hJ r (by omega) hrR hcell2 r0 (by omega)
              exact hr0occ this
          · rename_i hfind
            intro r hkr hrR hcell q hq
            rcases Nat.eq_or_lt_of_le hkr with heq | hlt
            · rw [← heq] at hq
              have := List.find?_eq_none.mp hfind q
                (by rw [List.mem_reverse, List.mem_range]; omega)
              rw [bne_iff_ne] at this
              push_neg at this
              exact this
            · exact hJ r (by omega) hrR hcell q hq
        · rename_i hguard
          intro r hkr hrR hcell q hq
          rcases Nat.eq_or_lt_of_le hkr with heq | hlt
          · exfalso
            rw [← heq] at hcell
            rw [hcell] at hguard
            exact hguard (by rfl)
          · exact hJ r (by omega) hrR hcell q hq
      exact dropColumnAux c k (dropColumnStep brd c k) (by omega) hlen1 hrows1 hc hJ1

/-- After `dropColumn`, the column has no occupied cell above an empty cell:
it is compacted downward (the routine's fixed direction). -/
theorem dropColumn_compactedDown (brd : Board) (c : Nat)
    (hlen : brd.grid.length = ROWS)
    (hrows : ∀ row ∈ brd.grid, row.length = COLS) (hc : c < COLS) :
    compactedToward Gravity.DOWN (dropColumn brd c).grid c := by
  have hJ := dropColumnAux c ROWS brd (Nat.le_refl ROWS) hlen hrows hc
    (fun r h1 h2 => absurd h2 (by omega))
  intro r r2 hlt hr2 hocc
  intro hzero
  apply hocc
  unfold dropColumn at hzero ⊢
  exact hJ r2 hr2 hzero r hlt

theorem compacted_congr (g1 g2 : Grid) (c : Nat) (grav : Gravity)
    (h : ∀ r, cellAt g2 r c = cellAt g1 r c) :
    compactedToward grav g1 c → compactedToward grav g2 c := by
  cases grav
  · intro hcp r r2 h1 h2 h3
    rw [h r2]
    rw [h r] at h3
    exact hcp r r2 h1 h2 h3
  · intro hcp r r2 h1 h2 h3
    rw [h r]
    rw [h r2] at h3
    exact hcp r r2 h1 h2 h3

/-- Every column the explosion touches is left downward-compacted. -/
theorem explodeBomb_compacts (s : ScoredBoard) (br bc : Nat)
    (hlen : s.board.grid.length = ROWS)
    (hrows : ∀ row ∈ s.board.grid, row.length = COLS) :
    ∀ c ∈ boxCols bc,
      compactedToward Gravity.DOWN (explodeBomb s br bc).board.grid c := by
  intro c hc
  unfold explodeBomb
  dsimp only
  obtain ⟨l1, l2, hsplit⟩ := List.append_of_mem hc
  have hnodup : (l1 ++ c :: l2).Nodup := by
    rw [← hsplit]
    exact boxCols_nodup bc
  have hcl2 : c ∉ l2 :=
    (List.nodup_cons.mp (hnodup.of_append_right)).1
  rw [hsplit, List.foldl_append, List.foldl_cons]
  have hlen1 : (l1.foldl (fun b c2 => dropColumn b c2)
      (bombBoxClear s br bc).board).grid.length = ROWS := by
    refine foldl_preserve (fun b : Board => b.grid.length = ROWS)
      (fun _ => True) _ l1 _ ?_ (fun _ _ => trivial) ?_
    · intro b c2 hb _
      rw [grid_length_dropColumn]
      exact hb
    · show (bombBoxClear s br bc).board.grid.length = ROWS
      rw [grid_length_bombBoxClear]
      exact hlen
  have hrows1 : ∀ row ∈ (l1.foldl (fun b c2 => dropColumn b c2)
      (bombBoxClear s br bc).board).grid, row.length = COLS := by
    refine foldl_preserve
      (fun b : Board => ∀ row ∈ b.grid, row.length = COLS)
      (fun _ => True) _ l1 _ ?_ (fun _ _ => trivial)
      (rows_len_bombBoxClear s br bc hrows)
    intro b c2 hb _
    exact rows_len_dropColumn b c2 hb
  have hcomp : compactedToward Gravity.DOWN
      (dropColumn (l1.foldl (fun b c2 => dropColumn b c2)
        (bombBoxClear s br bc).board) c).grid c :=
    dropColumn_compactedDown _ c hlen1 hrows1 (mem_boxCols_lt bc c hc)
  have hafter : ∀ r, cellAt (l2.foldl (fun b c2 => dropColumn b c2)
      (dropColumn (l1.foldl (fun b c2 => dropColumn b c2)
        (bombBoxClear s br bc).board) c)).grid r c =
      cellAt (dropColumn (l1.foldl (fun b c2 => dropColumn b c2)
        (bombBoxClear s br bc).board) c).grid r c := by
    intro r
    refine foldl_preserve (fun b : Board => cellAt b.grid r c =
        cellAt (dropColumn (l1.foldl (fun b c2 => dropColumn b c2)
          (bombBoxClear s br bc).board) c).grid r c)
      (fun c2 => c2 ∈ l2) _ l2 _ ?_ (fun x hx => hx) rfl
    intro b c2 hb hc2
    rw [cellAt_dropColumn_other b c2 r c (fun hq => hcl2 (hq ▸ hc2))]
    exact hb
  exact compacted_congr _ _ c Gravity.DOWN hafter hcomp

/-- Claim C3 amended: each bomb in a cleared line is queued exactly once and
detonates at the coordinates recorded at scan time (not adjusted for row
shifts, see the counterexample), clearing its clipped 3x3 neighbourhood with
a flat 10-point bonus per occupied cell, leaving everything outside the box
untouched, and then compacting each affected column downward. -/
theorem C3_bomb_amended (s : ScoredBoard) (br bc : Nat)
    (hlen : s.board.grid.length = ROWS)
    (hrows : ∀ row ∈ s.board.grid, row.length = COLS) :
    bombClaimAmended s br bc := by
  have h5 : (explodeBomb s br bc).score =
      s.score + 10 * boxOccCount s.board.grid br bc :=
    bombBoxClear_score s br bc
  have h6 : ∀ r c, c ∉ boxCols bc →
      cellAt (explodeBomb s br bc).board.grid r c = cellAt s.board.grid r c := by
    intro r c hc
    unfold explodeBomb
    dsimp only
    have h1 := bombBoxClear_outside s br bc r c (Or.inr hc)
    refine foldl_preserve
      (fun b : Board => cellAt b.grid r c = cellAt s.board.grid r c)
      (fun c2 => c2 ∈ boxCols bc) _ _ _ ?_ (fun x hx => hx) h1
    intro b c2 hb hc2
    rw [cellAt_dropColumn_other b c2 r c (fun hq => hc (hq ▸ hc2))]
    exact hb
  have h8 : ∀ r, r ∈ boxRows br ↔ r < ROWS ∧ br ≤ r + 1 ∧ r ≤ br + 1 := by
    intro r
    unfold boxRows
    rw [List.mem_filter, List.mem_range, Bool.and_eq_true,
      decide_eq_true_eq, decide_eq_true_eq]
  have h9 : ∀ c, c ∈ boxCols bc ↔ c < COLS ∧ bc ≤ c + 1 ∧ c ≤ bc + 1 := by
    intro c
    unfold boxCols
    rw [List.mem_filter, List.mem_range, Bool.and_eq_true,
      decide_eq_true_eq, decide_eq_true_eq]
  exact ⟨fun tb gb => collectBombs_nodup tb _ _ (scanRows_nodup gb),
    fun r c hr hc => bombBoxClear_box_zero s br bc r c hr hc,
    fun r c h => bombBoxClear_outside s br bc r c h,
    bombBoxClear_score s br bc, h5, h6,
    explodeBomb_compacts s br bc hlen hrows, h8, h9⟩

/-- Witness for the amended claim C3 on the full-column fixture. -/
theorem C3_bomb_amended_witness :
    (⟨c1Board, 0⟩ : ScoredBoard).board.grid.length = ROWS ∧
    (∀ row ∈ (⟨c1Board, 0⟩ : ScoredBoard).board.grid, row.length = COLS) ∧
    bombClaimAmended ⟨c1Board, 0⟩ 5 0 :=
  ⟨by decide, by decide, C3_bomb_amended ⟨c1Board, 0⟩ 5 0 (by decide) (by decide)⟩

/-!  ### Well-formedness machinery for claim C10  -/

theorem WF_setPair (brd : Board) (r c v t : Nat) (hWF : WFBoard brd)
    (ht : t ≤ 1) (hvt : v = 0 → t = 0) :
    WFBoard ⟨setCell brd.grid r c v, setCell brd.blockTypes r c t⟩ := by
  obtain ⟨h1, h2, h3, h4, h5, h6⟩ := hWF
  refine ⟨?_, ?_, ?_, ?_, ?_, ?_⟩
  · show (setCell brd.grid r c v).length = ROWS
    rw [length_setCell]
    exact h1
  · show (setCell brd.blockTypes r c t).length = ROWS
    rw [length_setCell]
    exact h2
  · exact rows_len_setCell _ _ _ _ h3
  · exact rows_len_setCell _ _ _ _ h4
  · intro r2 hr2 c2 hc2
    show cellAt (setCell brd.blockTypes r c t) r2 c2 ≤ 1
    rw [cellAt_setCell]
    split
    · exact ht
    · exact h5 r2 hr2 c2 hc2
  · intro r2 hr2 c2 hc2
    show cellAt (setCell brd.grid r c v) r2 c2 = 0 →
      cellAt (setCell brd.blockTypes r c t) r2 c2 = 0
    rw [cellAt_setCell, cellAt_setCell]
    by_cases hcase : r = r2 ∧ c = c2
    · obtain ⟨hr, hc'⟩ := hcase
      subst hr
      subst hc'
      have hgrow : (brd.grid.getD r []).length = COLS := by
        refine h3 _ ?_
        rw [List.getD_eq_getElem _ _ (by omega)]
        exact List.getElem_mem (by omega)
      have hbrow : (brd.blockTypes.getD r []).length = COLS := by
        refine h4 _ ?_
        rw [List.getD_eq_getElem _ _ (by omega)]
        exact List.getElem_mem (by omega)
      rw [if_pos ⟨rfl, rfl, by omega, by omega⟩,
        if_pos ⟨rfl, rfl, by omega, by omega⟩]
      exact hvt
    · rw [if_neg (by tauto), if_neg (by tauto)]
      exact h6 r2 hr2 c2 hc2

theorem WF_zeroColumn (brd : Board) (c : Nat) (hWF : WFBoard brd) :
    WFBoard (zeroColumn brd c) := by
  unfold zeroColumn
  refine foldl_preserve WFBoard (fun _ => True) _ _ brd ?_
    (fun _ _ => trivial) hWF
  intro b r hb _
  exact WF_setPair b r c 0 0 hb (by omega) (fun _ => rfl)

theorem WF_bombClearCell (a : ScoredBoard) (r c : Nat)
    (hWF : WFBoard a.board) : WFBoard (bombClearCell a r c).board := by
  unfold bombClearCell
  split
  · exact WF_setPair a.board r c 0 0 hWF (by omega) (fun _ => rfl)
  · exact hWF

theorem WF_dropColumnStep (brd : Board) (c row : Nat) (hWF : WFBoard brd)
    (hrow : row < ROWS) (hc : c < COLS) :
    WFBoard (dropColumnStep brd c row) := by
  unfold dropColumnStep
  split
  · split
    · rename_i r0 hfind
      have hr0row : r0 < row := by
        have := List.mem_of_find?_eq_some hfind
        rwa [List.mem_reverse, List.mem_range] at this
      have hocc : cellAt brd.grid r0 c ≠ 0 := by
        have := List.find?_some hfind
        rwa [bne_iff_ne] at this
      have ht : cellAt brd.blockTypes r0 c ≤ 1 :=
        hWF.2.2.2.2.1 r0 (by omega) c hc
      exact WF_setPair
        ⟨setCell brd.grid row c (cellAt brd.grid r0 c),
         setCell brd.blockTypes row c (cellAt brd.blockTypes r0 c)⟩
        r0 c 0 0
        (WF_setPair brd row c _ _ hWF ht (fun h => absurd h hocc))
        (by omega) (fun _ => rfl)
    · exact hWF
  · exact hWF

theorem WF_dropColumn (brd : Board) (c : Nat) (hWF : WFBoard brd)
    (hc : c < COLS) : WFBoard (dropColumn brd c) := by
  unfold dropColumn
  refine foldl_preserve WFBoard (fun row => row < ROWS) _ _ brd ?_ ?_ hWF
  · intro b row hb hrow
    exact WF_dropColumnStep b c row hb hrow hc
  · intro row hrow
    rwa [List.mem_reverse, List.mem_range] at hrow

theorem WF_clearCols (brd : Board) (cols : List Nat) (hWF : WFBoard brd)
    (hcols : ∀ c ∈ cols, c < COLS) : WFBoard (clearCols brd cols) := by
  unfold clearCols
  refine foldl_preserve WFBoard (fun c => c < COLS) _ _ brd ?_ hcols hWF
  intro b c hb hc
  exact WF_dropColumn (zeroColumn b c) c (WF_zeroColumn b c hb) hc

theorem emptyRow_getD (c : Nat) : emptyRow.getD c 0 = 0 := by
  unfold emptyRow
  by_cases h : c < COLS
  · rw [List.getD_eq_getElem _ _ (by simpa using h)]
    simp
  · exact List.getD_eq_default _ _ (by simpa using h)

theorem getDRow_eraseIdx (g : Grid) (rr i : Nat) (hrr : rr < g.length) :
    (g.eraseIdx rr).getD i [] =
      if i < rr then g.getD i [] else g.getD (i + 1) [] := by
  rw [List.eraseIdx_eq_take_drop_succ, List.getD_eq_getElem?_getD,
    List.getElem?_append, List.length_take]
  by_cases hi : i < rr
  · rw [if_pos (by omega), List.getElem?_take, if_pos hi, if_pos hi,
      List.getD_eq_getElem?_getD]
  · rw [if_neg (by omega), List.getElem?_drop, if_neg hi,
      List.getD_eq_getElem?_getD]
    congr 2
    omega

theorem mem_removeRow (grav : Gravity) (g : Grid) (rr : Nat) (row : List Nat)
    (h : row ∈ removeRow grav g rr) : row = emptyRow ∨ row ∈ g := by
  have herase : row ∈ g.eraseIdx rr → row ∈ g := by
    intro hq
    rw [List.eraseIdx_eq_take_drop_succ] at hq
    rcases List.mem_append.mp hq with h1 | h1
    · exact List.mem_of_mem_take h1
    · exact List.mem_of_mem_drop h1
  cases grav with
  | DOWN =>
    rcases List.mem_cons.mp h with h1 | h1
    · exact Or.inl h1
    · exact Or.inr (herase h1)
  | UP =>
    rcases List.mem_append.mp h with h1 | h1
    · exact Or.inr (herase h1)
    · rcases List.mem_cons.mp h1 with h2 | h2
      · exact Or.inl h2
      · exact absurd h2 (List.not_mem_nil row)

theorem cellAt_removeRow_down (g : Grid) (rr r c : Nat) (hrr : rr < g.length) :
    cellAt (removeRow Gravity.DOWN g rr) r c =
      if r = 0 then 0
      else if r - 1 < rr then cellAt g (r - 1) c else cellAt g r c := by
  unfold removeRow cellAt
  cases r with
  | zero =>
    rw [if_pos rfl]
    exact emptyRow_getD c
  | succ n =>
    rw [if_neg (by omega), List.getD_cons_succ, getDRow_eraseIdx g rr n hrr]
    by_cases hn : n < rr
    · rw [if_pos hn, if_pos (by omega)]
      norm_num
    · rw [if_neg hn, if_neg (by omega)]

theorem cellAt_removeRow_up (g : Grid) (rr r c : Nat) (hrr : rr < g.length) :
    cellAt (removeRow Gravity.UP g rr) r c =
      if r < rr then cellAt g r c
      else if r + 1 < g.length then cellAt g (r + 1) c else 0 := by
  have hlen2 : (g.eraseIdx rr).length = g.length - 1 := by
    rw [List.length_eraseIdx, if_pos hrr]
  show ((g.eraseIdx rr ++ [emptyRow]).getD r []).getD c 0 = _
  by_cases hr : r < g.length - 1
  · have hrow : (g.eraseIdx rr ++ [emptyRow]).getD r [] =
        (g.eraseIdx rr).getD r [] := by
      rw [List.getD_eq_getElem?_getD, List.getElem?_append, hlen2,
        if_pos (by omega), List.getD_eq_getElem?_getD]
    rw [hrow, getDRow_eraseIdx g rr r hrr]
    by_cases hlt : r < rr
    · rw [if_pos hlt, if_pos hlt]
      rfl
    · rw [if_neg hlt, if_neg hlt, if_pos (by omega)]
      rfl
  · by_cases heq : r = g.length - 1
    · have hrow : (g.eraseIdx rr ++ [emptyRow]).getD r [] = emptyRow := by
        rw [List.getD_eq_getElem?_getD, List.getElem?_append, hlen2,
          if_neg (by omega)]
        have hzero : r - (g.length - 1) = 0 := by omega
        rw [hzero]
        rfl
      rw [hrow, if_neg (by omega), if_neg (by omega)]
      exact emptyRow_getD c
    · have hrow : (g.eraseIdx rr ++ [emptyRow]).getD r [] = [] := by
        rw [List.getD_eq_getElem?_getD, List.getElem?_append, hlen2,
          if_neg (by omega)]
        have hnone : ([emptyRow] : Grid)[r - (g.length - 1)]? = none := by
          rw [List.getElem?_eq_none]
          simp only [List.length_cons, List.length_nil]
          omega
        rw [hnone]
        rfl
      rw [hrow, if_neg (by omega), if_neg (by omega)]
      rfl

theorem WF_removeRowPair (grav : Gravity) (brd : Board) (rr : Nat)
    (hWF : WFBoard brd) (hrr : rr < ROWS) :
    WFBoard ⟨removeRow grav brd.grid rr, removeRow grav brd.blockTypes rr⟩ := by
  obtain ⟨h1, h2, h3, h4, h5, h6⟩ := hWF
  have hrows : ∀ (g : Grid), (∀ row ∈ g, row.length = COLS) →
      ∀ row ∈ removeRow grav g rr, row.length = COLS := by
    intro g hg row h
    rcases mem_removeRow grav g rr row h with h0 | h0
    · rw [h0]
      simp [emptyRow]
    · exact hg row h0
  refine ⟨?_, ?_, hrows _ h3, hrows _ h4, ?_, ?_⟩
  · show (removeRow grav brd.grid rr).length = ROWS
    rw [length_removeRow grav _ rr (by omega)]
    exact h1
  · show (removeRow grav brd.blockTypes rr).length = ROWS
    rw [length_removeRow grav _ rr (by omega)]
    exact h2
  · intro r2 hr2 c2 hc2
    cases grav with
    | DOWN =>
      show cellAt (removeRow Gravity.DOWN brd.blockTypes rr) r2 c2 ≤ 1
      rw [cellAt_removeRow_down _ rr r2 c2 (by omega)]
      split
      · omega
      · split
        · exact h5 (r2 - 1) (by omega) c2 hc2
        · exact h5 r2 hr2 c2 hc2
    | UP =>
      show cellAt (removeRow Gravity.UP brd.blockTypes rr) r2 c2 ≤ 1
      rw [cellAt_removeRow_up _ rr r2 c2 (by omega), h2]
      split
      · exact h5 r2 hr2 c2 hc2
      · split
        · exact h5 (r2 + 1) (by omega) c2 hc2
        · omega
  · intro r2 hr2 c2 hc2
    cases grav with
    | DOWN =>
      show cellAt (removeRow Gravity.DOWN brd.grid rr) r2 c2 = 0 →
        cellAt (removeRow Gravity.DOWN brd.blockTypes rr) r2 c2 = 0
      rw [cellAt_removeRow_down _ rr r2 c2 (by omega),
        cellAt_removeRow_down _ rr r2 c2 (by omega)]
      split
      · intro _
        rfl
      · split
        · exact h6 (r2 - 1) (by omega) c2 hc2
        · exact h6 r2 hr2 c2 hc2
    | UP =>
      show cellAt (removeRow Gravity.UP brd.grid rr) r2 c2 = 0 →
        cellAt (removeRow Gravity.UP brd.blockTypes rr) r2 c2 = 0
      rw [cellAt_removeRow_up _ rr r2 c2 (by omega),
        cellAt_removeRow_up _ rr r2 c2 (by omega), h1, h2]
      split
      · exact h6 r2 hr2 c2 hc2
      · split
        · exact h6 (r2 + 1) (by omega) c2 hc2
        · intro _
          rfl

theorem WF_clearRows (grav : Gravity) (brd : Board) (rows : List Nat)
    (hWF : WFBoard brd) (hrows : ∀ r ∈ rows, r < ROWS) :
    WFBoard (clearRows grav brd rows) := by
  unfold clearRows
  refine foldl_preserve WFBoard (fun r => r < ROWS) _ rows brd ?_ hrows hWF
  intro b r hb hr
  exact WF_removeRowPair grav b r hb hr

theorem WF_bombBoxClear (s : ScoredBoard) (br bc : Nat)
    (hWF : WFBoard s.board) : WFBoard (bombBoxClear s br bc).board := by
  unfold bombBoxClear
  refine foldl_preserve (fun a : ScoredBoard => WFBoard a.board)
    (fun _ => True) _ _ s ?_ (fun _ _ => trivial) hWF
  intro a r ha _
  refine foldl_preserve (fun a2 : ScoredBoard => WFBoard a2.board)
    (fun _ => True) _ _ a ?_ (fun _ _ => trivial) ha
  intro a2 c ha2 _
  exact WF_bombClearCell a2 r c ha2

theorem WF_explodeBomb (s : ScoredBoard) (br bc : Nat)
    (hWF : WFBoard s.board) : WFBoard (explodeBomb s br bc).board := by
  unfold explodeBomb
  dsimp only
  refine foldl_preserve WFBoard (fun c => c < COLS) _ _ _ ?_ ?_
    (WF_bombBoxClear s br bc hWF)
  · intro b c hb hc
    exact WF_dropColumn b c hb hc
  · intro c hc
    exact mem_boxCols_lt bc c hc

theorem WF_explodeBombs (s : ScoredBoard) (bombs : List (Nat × Nat))
    (hWF : WFBoard s.board) : WFBoard (explodeBombs s bombs).board := by
  unfold explodeBombs
  refine foldl_preserve (fun a : ScoredBoard => WFBoard a.board)
    (fun _ => True) _ bombs s ?_ (fun _ _ => trivial) hWF
  intro a p ha _
  exact WF_explodeBomb a p.1 p.2 ha

theorem WF_clearResolve (grav : Gravity) (st : ClearState)
    (hWF : WFBoard st.board) : WFBoard (clearResolve grav st).board := by
  unfold clearResolve
  dsimp only
  split
  · exact hWF
  · refine WF_explodeBombs _ _ ?_
    refine WF_clearCols _ _ ?_ ?_
    · refine WF_clearRows grav st.board _ hWF ?_
      intro r hr
      rw [List.mem_reverse] at hr
      exact mem_scanRows_lt _ r hr
    · intro c hc
      exact mem_scanCols_lt _ c hc

theorem cellAt_reverse (g : Grid) (r c : Nat) (hr : r < g.length) :
    cellAt g.reverse r c = cellAt g (g.length - 1 - r) c := by
  unfold cellAt
  have hrow : g.reverse.getD r [] = g.getD (g.length - 1 - r) [] := by
    rw [List.getD_eq_getElem?_getD, List.getD_eq_getElem?_getD,
      List.getElem?_reverse hr]
  rw [hrow]

theorem WF_flipBoard (brd : Board) (hWF : WFBoard brd) :
    WFBoard (flipBoard brd) := by
  obtain ⟨h1, h2, h3, h4, h5, h6⟩ := hWF
  refine ⟨?_, ?_, ?_, ?_, ?_, ?_⟩
  · show brd.grid.reverse.length = ROWS
    rw [List.length_reverse]
    exact h1
  · show brd.blockTypes.reverse.length = ROWS
    rw [List.length_reverse]
    exact h2
  · intro row h
    exact h3 row (List.mem_reverse.mp h)
  · intro row h
    exact h4 row (List.mem_reverse.mp h)
  · intro r2 hr2 c2 hc2
    show cellAt brd.blockTypes.reverse r2 c2 ≤ 1
    rw [cellAt_reverse _ _ _ (by omega), h2]
    exact h5 (ROWS - 1 - r2) (by omega) c2 hc2
  · intro r2 hr2 c2 hc2
    show cellAt brd.grid.reverse r2 c2 = 0 →
      cellAt brd.blockTypes.reverse r2 c2 = 0
    rw [cellAt_reverse _ _ _ (by omega), cellAt_reverse _ _ _ (by omega),
      h1, h2]
    exact h6 (ROWS - 1 - r2) (by omega) c2 hc2

theorem WF_lockPiece (p : Piece) (brd : Board) (hWF : WFBoard brd)
    (hcolor : p.color ≠ 0) : WFBoard (lockPiece p brd) := by
  unfold lockPiece
  refine foldl_preserve WFBoard (fun _ => True) _ _ brd ?_
    (fun _ _ => trivial) hWF
  intro b q hb _
  split
  · refine WF_setPair b _ _ _ _ hb ?_ ?_
    · split
      · omega
      · omega
    · intro hv
      exact absurd hv hcolor
  · exact hb

/-!  ### Claim C10: board well-formedness invariants  -/

/-- Claim C10: the reset board is well formed, and every board-mutating
operation (piece lock, the full clear resolution covering row clears, column
clears and bomb explosions, a bomb explosion on its own, and the gravity
flip) preserves well-formedness: both matrices stay `ROWS x COLS`, every
`blockTypes` entry stays `NORMAL` (0) or `BOMB` (1), and every cell that is
empty in the grid carries the `NORMAL` tag - so clearing a grid cell resets
its type in the same operation.  (Grid cells are 0 or a color tag by the
`Nat` encoding.)  Locking requires the piece's color to be a real color tag,
i.e. nonzero, which holds for every `COLORS` entry. -/
theorem C10_wellformedness :
    WFBoard resetBoard ∧
    (∀ (p : Piece) (brd : Board), WFBoard brd → p.color ≠ 0 →
      WFBoard (lockPiece p brd)) ∧
    (∀ (grav : Gravity) (brd : Board) (rows : List Nat), WFBoard brd →
      (∀ r ∈ rows, r < ROWS) → WFBoard (clearRows grav brd rows)) ∧
    (∀ (brd : Board) (cols : List Nat), WFBoard brd →
      (∀ c ∈ cols, c < COLS) → WFBoard (clearCols brd cols)) ∧
    (∀ (grav : Gravity) (st : ClearState), WFBoard st.board →
      WFBoard (clearResolve grav st).board) ∧
    (∀ (s : ScoredBoard) (br bc : Nat), WFBoard s.board →
      WFBoard (explodeBomb s br bc).board) ∧
    (∀ brd : Board, WFBoard brd → WFBoard (flipBoard brd)) :=
  ⟨by decide,
   fun p brd h hc => WF_lockPiece p brd h hc,
   fun grav brd rows h hr => WF_clearRows grav brd rows h hr,
   fun brd cols h hc => WF_clearCols brd cols h hc,
   fun grav st h => WF_clearResolve grav st h,
   fun s br bc h => WF_explodeBomb s br bc h,
   fun brd h => WF_flipBoard brd h⟩

/-- Witness for claim C10: locking a single-cell piece on the reset board
and flipping the full-column board both preserve well-formedness. -/
theorem C10_wellformedness_witness :
    (WFBoard resetBoard ∧ (⟨[[1]], 5, 4, 0, false⟩ : Piece).color ≠ 0 ∧
      WFBoard (lockPiece ⟨[[1]], 5, 4, 0, false⟩ resetBoard)) ∧
    (WFBoard c1Board ∧ WFBoard (flipBoard c1Board)) :=
  ⟨⟨by decide, by decide,
    C10_wellformedness.2.1 ⟨[[1]], 5, 4, 0, false⟩ resetBoard (by decide)
      (by decide)⟩,
   ⟨by decide, C10_wellformedness.2.2.2.2.2.2 c1Board (by decide)⟩⟩

end LineBreaker
